import Mathlib

/-!
Verification of the token lifecycle / caching protocol and the key-entry
persistence layer of the virgil-sdk-javascript repository.

Strings are modelled as `List Char`, byte sequences as `List Nat` with every
element below 256.  The embedding covers the ASCII fragment of the wire
formats: UTF-8 encoding of a character is modelled as its code point, which
is byte-exact for code points below 128 (the `wfStr` predicates below record
that boundary).
-/

/-- A printable ASCII character: the fragment of UTF-8 where one character
is one byte and JSON needs no escaping beyond quote and backslash. -/
def wfChar (c : Char) : Bool := decide (32 ≤ c.toNat) && decide (c.toNat < 128)

/-- All characters printable ASCII. -/
def wfStr (s : List Char) : Bool := s.all wfChar

/-- UTF-8 bytes of a string, modelled on the ASCII fragment (code point = byte). -/
def strToBytes (s : List Char) : List Nat := s.map (fun c => c.toNat)

/-- Inverse of `strToBytes` on the ASCII fragment. -/
def bytesToStr (bs : List Nat) : List Char := bs.map (fun b => Char.ofNat b)

/-- Every element of a byte sequence is an actual byte. -/
def wfBytes (bs : List Nat) : Bool := bs.all (fun b => b < 256)

theorem bytesToStr_strToBytes (s : List Char) : bytesToStr (strToBytes s) = s := by
  induction s with
  | nil => rfl
  | cons c cs ih =>
    simp only [strToBytes, bytesToStr, List.map_cons, List.map_map] at *
    simpa [Char.ofNat_toNat] using ih

theorem strToBytes_lt_256 (s : List Char) (h : wfStr s = true) :
    ∀ b ∈ strToBytes s, b < 256 := by
  intro b hb
  simp only [strToBytes, List.mem_map] at hb
  obtain ⟨c, hc, rfl⟩ := hb
  simp only [wfStr, List.all_eq_true] at h
  have := h c hc
  simp only [wfChar, Bool.and_eq_true, decide_eq_true_eq] at this
  omega

/-- JavaScript's `String.prototype.split` with a single-character separator:
the empty string maps to a single empty part, and separators at the string's
edges produce empty parts. -/
def jsSplit (sep : Char) : List Char → List (List Char)
  | [] => [[]]
  | c :: rest =>
    let ps := jsSplit sep rest
    if c = sep then [] :: ps
    else
      match ps with
      | [] => [[c]]
      | p :: ps2 => (c :: p) :: ps2

theorem jsSplit_ne_nil (sep : Char) (s : List Char) : jsSplit sep s ≠ [] := by
  cases s with
  | nil => simp [jsSplit]
  | cons c rest =>
    simp only [jsSplit]
    by_cases h : c = sep
    · simp [h]
    · simp only [if_neg h]
      cases jsSplit sep rest <;> simp

theorem jsSplit_no_sep (sep : Char) (a : List Char) (ha : sep ∉ a) :
    jsSplit sep a = [a] := by
  induction a with
  | nil => rfl
  | cons c rest ih =>
    have hc : c ≠ sep := fun h => ha (h ▸ List.mem_cons_self c rest)
    have hrest : sep ∉ rest := fun h => ha (List.mem_cons_of_mem c h)
    simp only [jsSplit, if_neg hc, ih hrest]

theorem jsSplit_append (sep : Char) (a : List Char) (ha : sep ∉ a) (rest : List Char) :
    jsSplit sep (a ++ sep :: rest) = a :: jsSplit sep rest := by
  induction a with
  | nil => simp [jsSplit]
  | cons c a' ih =>
    have hc : c ≠ sep := fun h => ha (h ▸ List.mem_cons_self c a')
    have ha' : sep ∉ a' := fun h => ha (List.mem_cons_of_mem c h)
    simp only [List.cons_append, jsSplit, if_neg hc, List.append_eq, ih ha']

/-!
Base64 at the level of 6-bit groups: `b64Groups` turns a byte sequence into
the list of 6-bit values of its (unpadded) base64 representation,
`b64Ungroups` inverts it, rejecting value lists whose length or trailing
bits cannot arise from an encoding.
-/

def b64Groups : List Nat → List Nat
  | [] => []
  | [b1] => [b1 / 4, b1 % 4 * 16]
  | [b1, b2] => [b1 / 4, b1 % 4 * 16 + b2 / 16, b2 % 16 * 4]
  | b1 :: b2 :: b3 :: rest =>
    b1 / 4 :: (b1 % 4 * 16 + b2 / 16) :: (b2 % 16 * 4 + b3 / 64) :: b3 % 64 :: b64Groups rest

def b64Ungroups : List Nat → Option (List Nat)
  | [] => some []
  | [_] => none
  | [v1, v2] => if v2 % 16 = 0 then some [v1 * 4 + v2 / 16] else none
  | [v1, v2, v3] =>
    if v3 % 4 = 0 then some [v1 * 4 + v2 / 16, v2 % 16 * 16 + v3 / 4] else none
  | v1 :: v2 :: v3 :: v4 :: rest =>
    match b64Ungroups rest with
    | none => none
    | some tail => some ((v1 * 4 + v2 / 16) :: (v2 % 16 * 16 + v3 / 4) :: (v3 % 4 * 64 + v4) :: tail)

theorem b64Ungroups_b64Groups :
    ∀ bs : List Nat, (∀ b ∈ bs, b < 256) → b64Ungroups (b64Groups bs) = some bs
  | [], _ => rfl
  | [b1], h => by
    have h1 : b1 < 256 := h b1 (by simp)
    simp only [b64Groups, b64Ungroups]
    have : b1 % 4 * 16 % 16 = 0 := by omega
    rw [if_pos this]
    congr 1
    have : b1 / 4 * 4 + b1 % 4 * 16 / 16 = b1 := by omega
    rw [this]
  | [b1, b2], h => by
    have h1 : b1 < 256 := h b1 (by simp)
    have h2 : b2 < 256 := h b2 (by simp)
    simp only [b64Groups, b64Ungroups]
    have : b2 % 16 * 4 % 4 = 0 := by omega
    rw [if_pos this]
    congr 1
    have e1 : b1 / 4 * 4 + (b1 % 4 * 16 + b2 / 16) / 16 = b1 := by omega
    have e2 : (b1 % 4 * 16 + b2 / 16) % 16 * 16 + b2 % 16 * 4 / 4 = b2 := by omega
    rw [e1, e2]
  | b1 :: b2 :: b3 :: rest, h => by
    have h1 : b1 < 256 := h b1 (by simp)
    have h2 : b2 < 256 := h b2 (by simp)
    have h3 : b3 < 256 := h b3 (by simp)
    have hrest : ∀ b ∈ rest, b < 256 := fun b hb => h b (by simp [hb])
    have ih := b64Ungroups_b64Groups rest hrest
    simp only [b64Groups]
    have shape : ∀ vs : List Nat, b64Ungroups vs = some rest →
        b64Ungroups (b1 / 4 :: (b1 % 4 * 16 + b2 / 16) :: (b2 % 16 * 4 + b3 / 64) :: b3 % 64 :: vs)
          = some (b1 :: b2 :: b3 :: rest) := by
      intro vs hvs
      simp only [b64Ungroups, hvs]
      have e1 : b1 / 4 * 4 + (b1 % 4 * 16 + b2 / 16) / 16 = b1 := by omega
      have e2 : (b1 % 4 * 16 + b2 / 16) % 16 * 16 + (b2 % 16 * 4 + b3 / 64) / 4 = b2 := by omega
      have e3 : (b2 % 16 * 4 + b3 / 64) % 4 * 64 + b3 % 64 = b3 := by omega
      rw [e1, e2, e3]
    exact shape (b64Groups rest) ih

theorem b64Groups_lt_64 (bs : List Nat) (h : ∀ b ∈ bs, b < 256) :
    ∀ v ∈ b64Groups bs, v < 64 := by
  induction bs using b64Groups.induct with
  | case1 => intro v hv; simp [b64Groups] at hv
  | case2 b1 =>
    intro v hv
    have h1 : b1 < 256 := h b1 (by simp)
    simp only [b64Groups, List.mem_cons, List.mem_singleton] at hv
    rcases hv with rfl | rfl | hv
    · omega
    · omega
    · simp at hv
  | case3 b1 b2 =>
    intro v hv
    have h1 : b1 < 256 := h b1 (by simp)
    have h2 : b2 < 256 := h b2 (by simp)
    simp only [b64Groups, List.mem_cons, List.mem_singleton] at hv
    rcases hv with rfl | rfl | rfl | hv
    · omega
    · omega
    · omega
    · simp at hv
  | case4 b1 b2 b3 rest ih =>
    intro v hv
    have h1 : b1 < 256 := h b1 (by simp)
    have h2 : b2 < 256 := h b2 (by simp)
    have h3 : b3 < 256 := h b3 (by simp)
    have hrest : ∀ b ∈ rest, b < 256 := fun b hb => h b (by simp [hb])
    simp only [b64Groups, List.mem_cons] at hv
    rcases hv with rfl | rfl | rfl | rfl | hv
    · omega
    · omega
    · omega
    · omega
    · exact ih hrest v hv

/-- The base64url alphabet (RFC 4648 §5), as used by the repository's
base64UrlEncode collaborator. -/
def b64UrlChars : List Char :=
  "ABCDEFGHIJKLMNOPQRSTUVWXYZabcdefghijklmnopqrstuvwxyz0123456789-_".toList

/-- The standard base64 alphabet (RFC 4648 §4), as used by Node's
Buffer base64 conversions in the key-entry serializer. -/
def b64StdChars : List Char :=
  "ABCDEFGHIJKLMNOPQRSTUVWXYZabcdefghijklmnopqrstuvwxyz0123456789+/".toList

def char64url (n : Nat) : Char := b64UrlChars.getD n ' '

def char64std (n : Nat) : Char := b64StdChars.getD n ' '

def val64url (c : Char) : Option Nat := b64UrlChars.findIdx? (fun x => x = c)

def val64std (c : Char) : Option Nat := b64StdChars.findIdx? (fun x => x = c)

/-- Option-valued map over a list, failing as soon as one element fails. -/
def mapOpt (f : α → Option β) : List α → Option (List β)
  | [] => some []
  | a :: as =>
    match f a, mapOpt f as with
    | some b, some bs => some (b :: bs)
    | _, _ => none

theorem val64url_char64url : ∀ n, n < 64 → val64url (char64url n) = some n := by decide

theorem val64std_char64std : ∀ n, n < 64 → val64std (char64std n) = some n := by decide

theorem char64url_ne_dot (n : Nat) : char64url n ≠ '.' := by
  rcases Nat.lt_or_ge n 64 with h | h
  · revert h
    have : ∀ m, m < 64 → char64url m ≠ '.' := by decide
    exact this n
  · unfold char64url
    rw [List.getD_eq_default]
    · decide
    · have : b64UrlChars.length = 64 := by decide
      omega

theorem mapOpt_map_section (f : β → Option α) (g : α → β)
    (hs : ∀ a ∈ as, f (g a) = some a) : mapOpt f (as.map g) = some as := by
  induction as with
  | nil => rfl
  | cons a rest ih =>
    simp only [List.map_cons, mapOpt]
    rw [hs a (by simp), ih (fun x hx => hs x (by simp [hx]))]

/-- Unpadded base64url encoding of a byte sequence; model of the
repository's base64UrlEncode collaborator (Lib/base64). -/
def b64UrlEncode (bs : List Nat) : List Char := (b64Groups bs).map char64url

/-- Base64url decoding; model of base64UrlDecode: strict on the alphabet
and on the shape left after padding was stripped. -/
def b64UrlDecode (s : List Char) : Option (List Nat) :=
  match mapOpt val64url s with
  | none => none
  | some vs => b64Ungroups vs

theorem b64UrlDecode_b64UrlEncode (bs : List Nat) (h : ∀ b ∈ bs, b < 256) :
    b64UrlDecode (b64UrlEncode bs) = some bs := by
  unfold b64UrlDecode b64UrlEncode
  rw [mapOpt_map_section val64url char64url
    (fun v hv => val64url_char64url v (b64Groups_lt_64 bs h v hv))]
  exact b64Ungroups_b64Groups bs h

theorem b64UrlEncode_ne_dot (bs : List Nat) : '.' ∉ b64UrlEncode bs := by
  intro hmem
  simp only [b64UrlEncode, List.mem_map] at hmem
  obtain ⟨v, _, hv⟩ := hmem
  exact char64url_ne_dot v hv

/-- Padding characters appended by standard base64 for a byte count `n`. -/
def b64Pad (n : Nat) : List Char :=
  if n % 3 = 1 then ['=', '='] else if n % 3 = 2 then ['='] else []

/-- Padded standard base64 encoding, as produced by Node's
Buffer.toString with base64 encoding. -/
def b64StdEncode (bs : List Nat) : List Char :=
  (b64Groups bs).map char64std ++ b64Pad bs.length

/-- Padded standard base64 decoding (trailing padding stripped first),
as performed by Buffer.from with base64 encoding. -/
def b64StdDecode (s : List Char) : Option (List Nat) :=
  match mapOpt val64std ((s.reverse.dropWhile (fun c => c = '=')).reverse) with
  | none => none
  | some vs => b64Ungroups vs

theorem char64std_ne_eq (n : Nat) : char64std n ≠ '=' := by
  rcases Nat.lt_or_ge n 64 with h | h
  · revert h
    have : ∀ m, m < 64 → char64std m ≠ '=' := by decide
    exact this n
  · unfold char64std
    rw [List.getD_eq_default]
    · decide
    · have : b64StdChars.length = 64 := by decide
      omega

theorem dropWhile_pad (p : Char → Bool) (pad : List Char) (hpad : ∀ c ∈ pad, p c = true)
    (core : List Char) :
    (pad ++ core).dropWhile p = core.dropWhile p := by
  induction pad with
  | nil => rfl
  | cons c rest ih =>
    simp only [List.cons_append, List.dropWhile_cons, hpad c (by simp), if_true]
    exact ih (fun x hx => hpad x (by simp [hx]))

theorem dropPad (cs pad : List Char) (hcs : ∀ c ∈ cs, c ≠ '=')
    (hpad : ∀ c ∈ pad, c = '=') :
    ((cs ++ pad).reverse.dropWhile (fun c => c = '=')).reverse = cs := by
  rw [List.reverse_append]
  rw [dropWhile_pad (fun c => decide (c = '=')) pad.reverse
    (by intro c hc; rw [List.mem_reverse] at hc; simp [hpad c hc])]
  have hself : cs.reverse.dropWhile (fun c => decide (c = '=')) = cs.reverse := by
    cases hrev : cs.reverse with
    | nil => rfl
    | cons hd tl =>
      have hhd : hd ∈ cs := by
        have hmem : hd ∈ cs.reverse := by rw [hrev]; simp
        simpa [List.mem_reverse] using hmem
      simp [List.dropWhile_cons, hcs hd hhd]
  rw [hself, List.reverse_reverse]

theorem b64Pad_all_eq (n : Nat) : ∀ c ∈ b64Pad n, c = '=' := by
  intro c hc
  unfold b64Pad at hc
  split_ifs at hc <;> simp_all

theorem b64StdDecode_b64StdEncode (bs : List Nat) (h : ∀ b ∈ bs, b < 256) :
    b64StdDecode (b64StdEncode bs) = some bs := by
  have hne : ∀ c ∈ (b64Groups bs).map char64std, c ≠ '=' := by
    intro c hc
    simp only [List.mem_map] at hc
    obtain ⟨v, _, hv⟩ := hc
    exact hv ▸ char64std_ne_eq v
  unfold b64StdDecode b64StdEncode
  rw [dropPad _ _ hne (b64Pad_all_eq _)]
  rw [mapOpt_map_section val64std char64std
    (fun v hv => val64std_char64std v (b64Groups_lt_64 bs h v hv))]
  exact b64Ungroups_b64Groups bs h

/-!
JSON text fragments.  The repository serializes fixed-shape objects with
JSON.stringify and reads them back with JSON.parse; the model prints those
exact shapes and parses them with a recursive-descent reader over
`List Char`.  Braces and quotes are named to keep the grammar explicit.
-/

def quoteC : Char := Char.ofNat 34

def backslashC : Char := Char.ofNat 92

def lbraceC : Char := Char.ofNat 123

def rbraceC : Char := Char.ofNat 125

/-- JSON string-body escaping as performed by JSON.stringify on printable
ASCII text: quote and backslash get a backslash, everything else is verbatim. -/
def escStr : List Char → List Char
  | [] => []
  | c :: rest => (if c = quoteC || c = backslashC then [backslashC, c] else [c]) ++ escStr rest

/-- A JSON string literal: quoted, escaped body. -/
def strLit (s : List Char) : List Char := quoteC :: escStr s ++ [quoteC]

/-- Reads a JSON string body up to the closing quote, undoing escapes. -/
def parseStrBody : List Char → Option (List Char × List Char)
  | [] => none
  | c :: rest =>
    if c = quoteC then some ([], rest)
    else if c = backslashC then
      match rest with
      | [] => none
      | c2 :: rest2 =>
        match parseStrBody rest2 with
        | none => none
        | some (v, r) => some (c2 :: v, r)
    else
      match parseStrBody rest with
      | none => none
      | some (v, r) => some (c :: v, r)

/-- Reads a JSON string literal (opening quote included). -/
def parseJStr : List Char → Option (List Char × List Char)
  | [] => none
  | c :: rest => if c = quoteC then parseStrBody rest else none

/-- Consumes an expected literal character sequence. -/
def expectL : List Char → List Char → Option (List Char)
  | [], s => some s
  | _ :: _, [] => none
  | c :: cs, x :: xs => if x = c then expectL cs xs else none

theorem expectL_append (pat rest : List Char) : expectL pat (pat ++ rest) = some rest := by
  induction pat with
  | nil => rfl
  | cons c cs ih => simp [expectL, ih]

theorem parseStrBody_escStr (v rest : List Char) :
    parseStrBody (escStr v ++ quoteC :: rest) = some (v, rest) := by
  induction v with
  | nil =>
    show parseStrBody (quoteC :: rest) = some ([], rest)
    rw [parseStrBody.eq_def]
    simp
  | cons c v' ih =>
    by_cases hc : c = quoteC || c = backslashC
    · simp only [escStr, if_pos hc, List.cons_append, List.append_assoc, List.nil_append]
      rw [parseStrBody.eq_def]
      have h1 : backslashC ≠ quoteC := by decide
      simp only [if_neg h1, if_pos rfl, ih, if_true]
    · simp only [escStr, if_neg hc, List.cons_append, List.nil_append]
      simp only [Bool.or_eq_true, not_or, decide_eq_true_eq] at hc
      rw [parseStrBody.eq_def]
      simp only [if_neg hc.1, if_neg hc.2]
      rw [ih]

theorem parseJStr_strLit (v rest : List Char) :
    parseJStr (strLit v ++ rest) = some (v, rest) := by
  simp only [strLit, List.cons_append, parseJStr, if_pos rfl, List.append_assoc,
    List.singleton_append]
  exact parseStrBody_escStr v rest

/-!
Decimal numerals, the JSON form of the integer Unix timestamps appearing in
token bodies (and, in the key-entry model, the injective stand-in for ISO
date strings).
-/

def digitChar (d : Nat) : Char := Char.ofNat (48 + d)

def decDigitsF : Nat → Nat → List Nat
  | 0, n => [n % 10]
  | fuel + 1, n => if n < 10 then [n] else decDigitsF fuel (n / 10) ++ [n % 10]

def decDigits (n : Nat) : List Nat := decDigitsF n n

/-- Decimal numeral of a natural number, as JSON.stringify prints it. -/
def natToDec (n : Nat) : List Char := (decDigits n).map digitChar

def isDigit (c : Char) : Bool := decide (48 ≤ c.toNat) && decide (c.toNat ≤ 57)

def takeDigits : List Char → (List Nat × List Char)
  | [] => ([], [])
  | c :: rest =>
    if isDigit c then
      match takeDigits rest with
      | (ds, r) => ((c.toNat - 48) :: ds, r)
    else ([], c :: rest)

def digitsVal (ds : List Nat) : Nat := ds.foldl (fun a d => a * 10 + d) 0

/-- Reads a decimal numeral (at least one digit). -/
def parseNatTok (s : List Char) : Option (Nat × List Char) :=
  match takeDigits s with
  | ([], _) => none
  | (ds, r) => some (digitsVal ds, r)

theorem decDigitsF_lt_10 : ∀ (fuel n : Nat), ∀ d ∈ decDigitsF fuel n, d < 10 := by
  intro fuel
  induction fuel with
  | zero =>
    intro n d hd
    simp only [decDigitsF, List.mem_singleton] at hd
    omega
  | succ fuel ih =>
    intro n d hd
    simp only [decDigitsF] at hd
    split at hd
    · simp only [List.mem_singleton] at hd
      omega
    · rcases List.mem_append.mp hd with hmem | hmem
      · exact ih _ d hmem
      · simp only [List.mem_singleton] at hmem
        omega

theorem decDigits_lt_10 (n : Nat) : ∀ d ∈ decDigits n, d < 10 :=
  decDigitsF_lt_10 n n

theorem digitsVal_decDigitsF : ∀ (fuel n : Nat), n ≤ fuel → digitsVal (decDigitsF fuel n) = n := by
  intro fuel
  induction fuel with
  | zero =>
    intro n hn
    have : n = 0 := by omega
    subst this
    rfl
  | succ fuel ih =>
    intro n hn
    by_cases h : n < 10
    · simp only [decDigitsF, if_pos h]
      simp [digitsVal]
    · simp only [decDigitsF, if_neg h]
      have hrec := ih (n / 10) (by omega)
      simp only [digitsVal, List.foldl_append, List.foldl_cons, List.foldl_nil] at hrec ⊢
      rw [hrec]
      omega

theorem digitsVal_decDigits (n : Nat) : digitsVal (decDigits n) = n :=
  digitsVal_decDigitsF n n (le_refl n)

theorem decDigits_ne_nil (n : Nat) : decDigits n ≠ [] := by
  unfold decDigits
  cases n with
  | zero => simp [decDigitsF]
  | succ m =>
    simp only [decDigitsF]
    split <;> simp

theorem digitChar_spec : ∀ d, d < 10 → isDigit (digitChar d) = true ∧ (digitChar d).toNat = 48 + d := by
  decide

theorem takeDigits_append (ds : List Nat) (rest : List Char) (hds : ∀ d ∈ ds, d < 10)
    (hrest : ∀ c, rest.head? = some c → isDigit c = false) :
    takeDigits (ds.map digitChar ++ rest) = (ds, rest) := by
  induction ds with
  | nil =>
    cases rest with
    | nil => rfl
    | cons c tl =>
      have := hrest c rfl
      simp [takeDigits, this]
  | cons d ds' ih =>
    have hd : d < 10 := hds d (by simp)
    obtain ⟨hdig, hval⟩ := digitChar_spec d hd
    have ihh := ih (fun x hx => hds x (by simp [hx]))
    simp only [List.map_cons, List.cons_append]
    rw [takeDigits.eq_def]
    simp only [hdig, if_true, ihh, hval]
    simp

theorem parseNatTok_natToDec (n : Nat) (rest : List Char)
    (hrest : ∀ c, rest.head? = some c → isDigit c = false) :
    parseNatTok (natToDec n ++ rest) = some (n, rest) := by
  unfold parseNatTok natToDec
  rw [takeDigits_append (decDigits n) rest (decDigits_lt_10 n) hrest]
  obtain ⟨d, ds', hd⟩ : ∃ d ds', decDigits n = d :: ds' := by
    cases h : decDigits n with
    | nil => exact absurd h (decDigits_ne_nil n)
    | cons d ds' => exact ⟨d, ds', rfl⟩
  rw [hd]
  simp only []
  rw [← hd, digitsVal_decDigits]

/-!
JSON objects whose keys and values are all strings: the shape of the `ada`
claim of a token body and of the `meta` field of a key entry.
-/

def strPairJson (p : List Char × List Char) : List Char :=
  strLit p.1 ++ ':' :: strLit p.2

def strPairsJson : List (List Char × List Char) → List Char
  | [] => []
  | [p] => strPairJson p
  | p :: rest => strPairJson p ++ ',' :: strPairsJson rest

def strObjJson (m : List (List Char × List Char)) : List Char :=
  lbraceC :: strPairsJson m ++ [rbraceC]

/-- Parses the pair list of a string-to-string object, consuming the closing
brace; `fuel` bounds the number of pairs (one unit per pair). -/
def parsePairs : Nat → List Char → Option (List (List Char × List Char) × List Char)
  | 0, _ => none
  | fuel + 1, s =>
    match parseJStr s with
    | none => none
    | some (k, s1) =>
      match expectL [':'] s1 with
      | none => none
      | some s2 =>
        match parseJStr s2 with
        | none => none
        | some (v, s3) =>
          match s3 with
          | [] => none
          | c :: s4 =>
            if c = ',' then
              match parsePairs fuel s4 with
              | none => none
              | some (ps, r) => some ((k, v) :: ps, r)
            else if c = rbraceC then some ([(k, v)], s4)
            else none

/-- Parses a string-to-string JSON object, opening brace included. -/
def parseStrObj (s : List Char) : Option (List (List Char × List Char) × List Char) :=
  match s with
  | [] => none
  | c :: s1 =>
    if c = lbraceC then
      match s1 with
      | [] => none
      | c2 :: s2 => if c2 = rbraceC then some ([], s2) else parsePairs s1.length s1
    else none

theorem parsePairs_print :
    ∀ (m : List (List Char × List Char)) (fuel : Nat) (rest : List Char),
      m.length ≤ fuel → m ≠ [] →
      parsePairs fuel (strPairsJson m ++ rbraceC :: rest) = some (m, rest)
  | [], _, _, _, hne => absurd rfl hne
  | [p], 0, _, hf, _ => by simp at hf
  | [p], fuel + 1, rest, _, _ => by
    simp only [strPairsJson, strPairJson, parsePairs, List.append_assoc, List.cons_append]
    rw [parseJStr_strLit]
    dsimp only
    have hcolon : expectL [':'] (':' :: (strLit p.2 ++ rbraceC :: rest))
        = some (strLit p.2 ++ rbraceC :: rest) := by
      simp [expectL]
    rw [hcolon]
    dsimp only
    rw [parseJStr_strLit]
    dsimp only
    have h1 : rbraceC ≠ ',' := by decide
    simp [if_neg h1]
  | p1 :: p2 :: m', 0, _, hf, _ => by simp at hf
  | p1 :: p2 :: m', fuel + 1, rest, hf, _ => by
    have ih := parsePairs_print (p2 :: m') fuel rest (by simp at hf ⊢; omega) (by simp)
    show parsePairs (fuel + 1)
      ((strPairJson p1 ++ ',' :: strPairsJson (p2 :: m')) ++ rbraceC :: rest) = _
    simp only [strPairJson, parsePairs, List.append_assoc, List.cons_append]
    rw [parseJStr_strLit]
    dsimp only
    have hcolon : expectL [':'] (':' :: (strLit p1.2 ++ ',' :: (strPairsJson (p2 :: m') ++ rbraceC :: rest)))
        = some (strLit p1.2 ++ ',' :: (strPairsJson (p2 :: m') ++ rbraceC :: rest)) := by
      simp [expectL]
    rw [hcolon]
    dsimp only
    rw [parseJStr_strLit]
    dsimp only
    simp only [if_pos rfl]
    rw [ih]
    simp

theorem strPairsJson_head_quote (p : List Char × List Char) (m' : List (List Char × List Char)) :
    ∃ tl, strPairsJson (p :: m') = quoteC :: tl := by
  cases m' with
  | nil => exact ⟨escStr p.1 ++ [quoteC] ++ ':' :: strLit p.2, by simp [strPairsJson, strPairJson, strLit]⟩
  | cons q m'' =>
    exact ⟨escStr p.1 ++ [quoteC] ++ ':' :: strLit p.2 ++ ',' :: strPairsJson (q :: m''),
      by simp [strPairsJson, strPairJson, strLit]⟩

theorem parseStrObj_print (m : List (List Char × List Char)) (rest : List Char) :
    parseStrObj (strObjJson m ++ rest) = some (m, rest) := by
  cases m with
  | nil =>
    simp only [strObjJson, strPairsJson, List.nil_append, List.cons_append, parseStrObj,
      List.singleton_append]
    simp
  | cons p m' =>
    obtain ⟨tl, htl⟩ := strPairsJson_head_quote p m'
    have hq : quoteC ≠ rbraceC := by decide
    have hlen0 : (p :: m').length ≤ (strPairsJson (p :: m')).length := by
      clear htl
      induction m' generalizing p with
      | nil => simp [strPairsJson, strPairJson, strLit]
      | cons q m'' ih =>
        have := ih q
        simp only [strPairsJson, strPairJson, List.length_append, List.length_cons] at *
        simp [strLit]
        omega
    have hfuel : (p :: m').length ≤ (strPairsJson (p :: m') ++ rbraceC :: rest).length :=
      le_trans hlen0 (by simp)
    simp only [strObjJson, List.cons_append, parseStrObj, if_pos rfl, List.append_assoc,
      List.nil_append, List.singleton_append]
    rw [htl]
    simp only [List.cons_append, if_neg hq]
    have hback : quoteC :: (tl ++ rbraceC :: rest) = strPairsJson (p :: m') ++ rbraceC :: rest := by
      rw [htl]
      simp
    rw [hback, parsePairs_print (p :: m') _ rest (by simpa using hfuel) (by simp)]
    simp

/-!
The Jwt value object (src/Auth/Jwt.ts).  Header and body carry the fields of
IJwtHeader and IJwtBody; `signature` is optional, exactly as in the source
constructor.  JSON.stringify / JSON.parse on these fixed shapes are modelled
by the canonical printers and recursive-descent readers below.
-/

structure JwtHeader where
  alg : List Char
  typ : List Char
  cty : List Char
  kid : List Char
deriving DecidableEq, Repr

structure JwtBody where
  iss : List Char
  sub : List Char
  iat : Nat
  exp : Nat
  ada : Option (List (List Char × List Char))
deriving DecidableEq, Repr

structure Jwt where
  header : JwtHeader
  body : JwtBody
  signature : Option (List Nat)
deriving DecidableEq, Repr

/-- The object key of a JSON field followed by the colon. -/
def keyPre (k : List Char) : List Char := strLit k ++ [':']

def algKey : List Char := "alg".toList

def typKey : List Char := "typ".toList

def ctyKey : List Char := "cty".toList

def kidKey : List Char := "kid".toList

def issKey : List Char := "iss".toList

def subKey : List Char := "sub".toList

def iatKey : List Char := "iat".toList

def expKey : List Char := "exp".toList

def adaKey : List Char := "ada".toList

/-- JSON.stringify of a token header, in field declaration order. -/
def headerJson (h : JwtHeader) : List Char :=
  lbraceC :: keyPre algKey ++ strLit h.alg
    ++ ',' :: keyPre typKey ++ strLit h.typ
    ++ ',' :: keyPre ctyKey ++ strLit h.cty
    ++ ',' :: keyPre kidKey ++ strLit h.kid
    ++ [rbraceC]

/-- The optional trailing `ada` field of a body: absent fields are omitted by
JSON.stringify. -/
def adaPart : Option (List (List Char × List Char)) → List Char
  | none => []
  | some m => ',' :: keyPre adaKey ++ strObjJson m

/-- JSON.stringify of a token body, in field declaration order. -/
def bodyJson (b : JwtBody) : List Char :=
  lbraceC :: keyPre issKey ++ strLit b.iss
    ++ ',' :: keyPre subKey ++ strLit b.sub
    ++ ',' :: keyPre iatKey ++ natToDec b.iat
    ++ ',' :: keyPre expKey ++ natToDec b.exp
    ++ adaPart b.ada
    ++ [rbraceC]

/-- JSON.parse specialised to the header object shape. -/
def parseHeader (s : List Char) : Option JwtHeader := do
  let s ← expectL (lbraceC :: keyPre algKey) s
  let (alg, s) ← parseJStr s
  let s ← expectL (',' :: keyPre typKey) s
  let (typ, s) ← parseJStr s
  let s ← expectL (',' :: keyPre ctyKey) s
  let (cty, s) ← parseJStr s
  let s ← expectL (',' :: keyPre kidKey) s
  let (kid, s) ← parseJStr s
  let s ← expectL [rbraceC] s
  if s = [] then some ⟨alg, typ, cty, kid⟩ else none

/-- JSON.parse specialised to the body object shape (optional `ada`). -/
def parseBody (s : List Char) : Option JwtBody := do
  let s ← expectL (lbraceC :: keyPre issKey) s
  let (iss, s) ← parseJStr s
  let s ← expectL (',' :: keyPre subKey) s
  let (sub, s) ← parseJStr s
  let s ← expectL (',' :: keyPre iatKey) s
  let (iat, s) ← parseNatTok s
  let s ← expectL (',' :: keyPre expKey) s
  let (expv, s) ← parseNatTok s
  match expectL (',' :: keyPre adaKey) s with
  | some s2 => do
    let (m, s3) ← parseStrObj s2
    let s4 ← expectL [rbraceC] s3
    if s4 = [] then some ⟨iss, sub, iat, expv, some m⟩ else none
  | none => do
    let s2 ← expectL [rbraceC] s
    if s2 = [] then some ⟨iss, sub, iat, expv, none⟩ else none

/-- Errors of the token layer: the single coarse wire-format error thrown by
Jwt.fromString, and the subject/issuer format error thrown lazily by
identity() and appId(). -/
inductive TokenError where
  | malformedToken : TokenError
  | tokenFormat : TokenError
deriving DecidableEq, Repr

/-- Source constant SubjectPrefix. -/
def subjectTag : List Char := "identity-".toList

/-- Source constant IssuerPrefix. -/
def issuerTag : List Char := "virgil-".toList

/-- String.prototype.indexOf(p) === 0, i.e. the string starts with `p`. -/
def startsWith : List Char → List Char → Bool
  | [], _ => true
  | _ :: _, [] => false
  | c :: cs, x :: xs => c = x && startsWith cs xs

def headerBase64 (h : JwtHeader) : List Char := b64UrlEncode (strToBytes (headerJson h))

def bodyBase64 (b : JwtBody) : List Char := b64UrlEncode (strToBytes (bodyJson b))

def signatureBase64 (sig : List Nat) : List Char := b64UrlEncode sig

/-- The bytes signed by the issuer: UTF-8 of headerBase64 ++ "." ++ bodyBase64,
computed in the Jwt constructor. -/
def Jwt.unsignedData (j : Jwt) : List Nat :=
  strToBytes (headerBase64 j.header ++ '.' :: bodyBase64 j.body)

/-- The string representation computed once in the Jwt constructor and
returned by Jwt.toString: the signature segment and its separating dot are
present exactly when a signature is. -/
def Jwt.toString (j : Jwt) : List Char :=
  match j.signature with
  | none => headerBase64 j.header ++ '.' :: bodyBase64 j.body
  | some sig => headerBase64 j.header ++ '.' :: bodyBase64 j.body ++ '.' :: signatureBase64 sig

/-- Jwt.fromString: split on '.', require exactly 3 parts, base64url-decode
each, JSON-parse header and body; every failure inside the try block
collapses to the single wire-format error. -/
def Jwt.fromString (s : List Char) : Except TokenError Jwt :=
  match jsSplit '.' s with
  | [p0, p1, p2] =>
    match b64UrlDecode p0, b64UrlDecode p1, b64UrlDecode p2 with
    | some hb, some bb, some sig =>
      match parseHeader (bytesToStr hb), parseBody (bytesToStr bb) with
      | some h, some b => .ok ⟨h, b, some sig⟩
      | _, _ => .error .malformedToken
    | _, _, _ => .error .malformedToken
  | _ => .error .malformedToken

/-- Jwt.identity: strips the subject tag from body.sub, failing when body.sub
does not start with it. -/
def Jwt.identity (j : Jwt) : Except TokenError (List Char) :=
  if startsWith subjectTag j.body.sub then .ok (j.body.sub.drop subjectTag.length)
  else .error .tokenFormat

/-- Jwt.appId: strips the issuer tag from body.iss, failing when body.iss
does not start with it. -/
def Jwt.appId (j : Jwt) : Except TokenError (List Char) :=
  if startsWith issuerTag j.body.iss then .ok (j.body.iss.drop issuerTag.length)
  else .error .tokenFormat

/-- Modelled from the spec: getUnixTimestamp of Lib/timestamp (absent from
the sources) — the Unix-seconds value of a date, dates being modelled as
milliseconds since the epoch. -/
def getUnixTimestamp (d : Nat) : Nat := d / 1000

/-- Modelled from the spec: addSeconds of Lib/timestamp (absent from the
sources) — shifts a date, in milliseconds, forward by whole seconds. -/
def addSeconds (d : Nat) (s : Nat) : Nat := d + s * 1000

/-- Jwt.isExpired: body.exp strictly below the Unix seconds of the probe date. -/
def Jwt.isExpired (j : Jwt) (t : Nat) : Bool := decide (j.body.exp < getUnixTimestamp t)

/-!
Well-formedness: token fields and meta maps restricted to printable ASCII,
the fragment on which the UTF-8 and JSON escaping models are byte-exact.
-/

def wfMeta (m : List (List Char × List Char)) : Bool :=
  m.all (fun p => wfStr p.1 && wfStr p.2)

def wfHeader (h : JwtHeader) : Bool :=
  wfStr h.alg && wfStr h.typ && wfStr h.cty && wfStr h.kid

def wfBody (b : JwtBody) : Bool :=
  wfStr b.iss && wfStr b.sub &&
    (match b.ada with
     | none => true
     | some m => wfMeta m)

theorem wfStr_append (a b : List Char) : wfStr (a ++ b) = (wfStr a && wfStr b) :=
  List.all_append

theorem wfStr_eq_true_iff (s : List Char) : wfStr s = true ↔ ∀ c ∈ s, wfChar c = true := by
  simp [wfStr, List.all_eq_true]

theorem wfStr_cons (c : Char) (s : List Char) : wfStr (c :: s) = (wfChar c && wfStr s) :=
  List.all_cons

theorem wfStr_escStr (s : List Char) (h : wfStr s = true) : wfStr (escStr s) = true := by
  rw [wfStr_eq_true_iff] at h ⊢
  revert h
  induction s with
  | nil =>
    intro _ c hc
    simp [escStr] at hc
  | cons a ds ih =>
    intro h c hc
    by_cases hq : a = quoteC || a = backslashC
    · simp only [escStr, if_pos hq, List.cons_append, List.nil_append, List.mem_cons] at hc
      rcases hc with rfl | rfl | hc
      · decide
      · exact h _ (by simp)
      · exact ih (fun x hx => h x (by simp [hx])) c hc
    · simp only [escStr, if_neg hq, List.cons_append, List.nil_append, List.mem_cons] at hc
      rcases hc with rfl | hc
      · exact h _ (by simp)
      · exact ih (fun x hx => h x (by simp [hx])) c hc

theorem wfStr_strLit (s : List Char) (h : wfStr s = true) : wfStr (strLit s) = true := by
  have hq : wfChar quoteC = true := by decide
  have hq2 : wfStr [quoteC] = true := by decide
  have hesc := wfStr_escStr s h
  simp only [strLit, wfStr_cons, wfStr_append, hq, hq2, hesc, Bool.true_and, Bool.and_true]

theorem wfStr_natToDec (n : Nat) : wfStr (natToDec n) = true := by
  rw [wfStr_eq_true_iff]
  intro c hc
  simp only [natToDec, List.mem_map] at hc
  obtain ⟨d, hd, rfl⟩ := hc
  have hlt : d < 10 := decDigits_lt_10 n d hd
  have hdig : ∀ d, d < 10 → wfChar (digitChar d) = true := by decide
  exact hdig d hlt

theorem wfStr_strPairJson (p : List Char × List Char) (h1 : wfStr p.1 = true)
    (h2 : wfStr p.2 = true) : wfStr (strPairJson p) = true := by
  have hcolon : wfChar ':' = true := by decide
  simp only [strPairJson, wfStr_append, wfStr_cons, hcolon, wfStr_strLit _ h1,
    wfStr_strLit _ h2, Bool.true_and, Bool.and_true]

theorem wfStr_strPairsJson : ∀ m : List (List Char × List Char), wfMeta m = true →
    wfStr (strPairsJson m) = true
  | [], _ => rfl
  | [p], h => by
    simp only [wfMeta, List.all_cons, List.all_nil, Bool.and_eq_true, and_true] at h
    show wfStr (strPairJson p) = true
    exact wfStr_strPairJson p h.1 h.2
  | p :: q :: m', h => by
    simp only [wfMeta, List.all_cons, Bool.and_eq_true] at h
    have htail : wfMeta (q :: m') = true := by
      simp [wfMeta, List.all_cons, h.2.1, h.2.2]
    have hrec := wfStr_strPairsJson (q :: m') htail
    show wfStr (strPairJson p ++ ',' :: strPairsJson (q :: m')) = true
    have hcomma : wfChar ',' = true := by decide
    simp only [wfStr_append, wfStr_cons, hcomma, hrec, Bool.true_and, Bool.and_true,
      wfStr_strPairJson p h.1.1 h.1.2]

theorem wfStr_strObjJson (m : List (List Char × List Char)) (h : wfMeta m = true) :
    wfStr (strObjJson m) = true := by
  have hp := wfStr_strPairsJson m h
  have c0 : wfChar lbraceC = true := by decide
  have hrb : wfStr [rbraceC] = true := by decide
  simp only [strObjJson, wfStr_cons, wfStr_append, c0, hp, hrb, Bool.true_and, Bool.and_true]

theorem wfStr_headerJson (h : JwtHeader) (hw : wfHeader h = true) :
    wfStr (headerJson h) = true := by
  simp only [wfHeader, Bool.and_eq_true] at hw
  obtain ⟨⟨⟨h1, h2⟩, h3⟩, h4⟩ := hw
  have c0 : wfChar lbraceC = true := by decide
  have cc : wfChar ',' = true := by decide
  have k1 : wfStr (keyPre algKey) = true := by decide
  have k2 : wfStr (keyPre typKey) = true := by decide
  have k3 : wfStr (keyPre ctyKey) = true := by decide
  have k4 : wfStr (keyPre kidKey) = true := by decide
  have hrb : wfStr [rbraceC] = true := by decide
  simp only [headerJson, wfStr_append, wfStr_cons, c0, cc, k1, k2, k3, k4, hrb,
    wfStr_strLit _ h1, wfStr_strLit _ h2, wfStr_strLit _ h3, wfStr_strLit _ h4,
    Bool.true_and, Bool.and_true]

theorem wfStr_adaPart (a : Option (List (List Char × List Char)))
    (ha : (match a with | none => true | some m => wfMeta m) = true) :
    wfStr (adaPart a) = true := by
  cases a with
  | none => rfl
  | some m =>
    have cc : wfChar ',' = true := by decide
    have k5 : wfStr (keyPre adaKey) = true := by decide
    simp only [adaPart, wfStr_append, wfStr_cons, cc, k5, Bool.true_and, Bool.and_true]
    exact wfStr_strObjJson m ha

theorem wfStr_bodyJson (b : JwtBody) (hw : wfBody b = true) :
    wfStr (bodyJson b) = true := by
  simp only [wfBody, Bool.and_eq_true] at hw
  obtain ⟨⟨h1, h2⟩, h3⟩ := hw
  have c0 : wfChar lbraceC = true := by decide
  have cc : wfChar ',' = true := by decide
  have k1 : wfStr (keyPre issKey) = true := by decide
  have k2 : wfStr (keyPre subKey) = true := by decide
  have k3 : wfStr (keyPre iatKey) = true := by decide
  have k4 : wfStr (keyPre expKey) = true := by decide
  have hrb : wfStr [rbraceC] = true := by decide
  simp only [bodyJson, wfStr_append, wfStr_cons, c0, cc, k1, k2, k3, k4, hrb,
    wfStr_strLit _ h1, wfStr_strLit _ h2, wfStr_natToDec, wfStr_adaPart b.ada h3,
    Bool.true_and, Bool.and_true]

theorem parseHeader_headerJson (h : JwtHeader) : parseHeader (headerJson h) = some h := by
  unfold parseHeader headerJson
  simp only [List.append_assoc]
  rw [expectL_append]
  simp only [Option.bind_eq_bind, Option.some_bind]
  rw [parseJStr_strLit]
  simp only [Option.bind_eq_bind, Option.some_bind]
  rw [expectL_append]
  simp only [Option.bind_eq_bind, Option.some_bind]
  rw [parseJStr_strLit]
  simp only [Option.bind_eq_bind, Option.some_bind]
  rw [expectL_append]
  simp only [Option.bind_eq_bind, Option.some_bind]
  rw [parseJStr_strLit]
  simp only [Option.bind_eq_bind, Option.some_bind]
  rw [expectL_append]
  simp only [Option.bind_eq_bind, Option.some_bind]
  rw [parseJStr_strLit]
  simp only [Option.bind_eq_bind, Option.some_bind]
  have hrb : expectL [rbraceC] [rbraceC] = some [] := by decide
  rw [hrb]
  simp only [Option.bind_eq_bind, Option.some_bind]
  simp

theorem notDigit_comma : ∀ c : Char, (List.head? (',' :: s)) = some c → isDigit c = false := by
  intro c hc
  simp only [List.head?_cons, Option.some.injEq] at hc
  subst hc
  decide

theorem notDigit_rbrace : ∀ c : Char, (List.head? (rbraceC :: s)) = some c → isDigit c = false := by
  intro c hc
  simp only [List.head?_cons, Option.some.injEq] at hc
  subst hc
  decide

theorem parseNatTok_natToDec2 (n : Nat) (c : Char) (k rest : List Char)
    (hc : isDigit c = false) :
    parseNatTok (natToDec n ++ ((c :: k) ++ rest)) = some (n, (c :: k) ++ rest) := by
  refine parseNatTok_natToDec n ((c :: k) ++ rest) ?_
  intro x hx
  simp only [List.cons_append, List.head?_cons, Option.some.injEq] at hx
  subst hx
  exact hc

theorem parseBody_bodyJson (b : JwtBody) : parseBody (bodyJson b) = some b := by
  unfold parseBody bodyJson
  simp only [List.append_assoc]
  rw [expectL_append]
  simp only [Option.bind_eq_bind, Option.some_bind]
  rw [parseJStr_strLit]
  simp only [Option.bind_eq_bind, Option.some_bind]
  rw [expectL_append]
  simp only [Option.bind_eq_bind, Option.some_bind]
  rw [parseJStr_strLit]
  simp only [Option.bind_eq_bind, Option.some_bind]
  rw [expectL_append]
  simp only [Option.bind_eq_bind, Option.some_bind]
  rw [parseNatTok_natToDec2 _ ',' _ _ (by decide)]
  simp only [Option.bind_eq_bind, Option.some_bind]
  rw [expectL_append]
  simp only [Option.bind_eq_bind, Option.some_bind]
  cases hada : b.ada with
  | none =>
    simp only [adaPart, List.nil_append]
    rw [parseNatTok_natToDec _ _ notDigit_rbrace]
    simp only [Option.bind_eq_bind, Option.some_bind]
    have hno : expectL (',' :: keyPre adaKey) [rbraceC] = none := by decide
    rw [hno]
    simp only [Option.bind_eq_bind, Option.some_bind]
    have hrb : expectL [rbraceC] [rbraceC] = some [] := by decide
    rw [hrb]
    simp only [Option.bind_eq_bind, Option.some_bind]
    simp [← hada]
  | some m =>
    simp only [adaPart, List.append_assoc]
    rw [parseNatTok_natToDec2 _ ',' _ _ (by decide)]
    simp only [Option.bind_eq_bind, Option.some_bind]
    rw [expectL_append]
    simp only [Option.bind_eq_bind, Option.some_bind]
    rw [parseStrObj_print]
    simp only [Option.bind_eq_bind, Option.some_bind]
    have hrb : expectL [rbraceC] [rbraceC] = some [] := by decide
    rw [hrb]
    simp only [Option.bind_eq_bind, Option.some_bind]
    simp [← hada]

theorem jsSplit_toString (h : JwtHeader) (b : JwtBody) (sig : List Nat) :
    jsSplit '.' (Jwt.toString ⟨h, b, some sig⟩)
      = [headerBase64 h, bodyBase64 b, signatureBase64 sig] := by
  show jsSplit '.' (headerBase64 h ++ '.' :: bodyBase64 b ++ '.' :: signatureBase64 sig) = _
  have h1 : '.' ∉ headerBase64 h := b64UrlEncode_ne_dot _
  have h2 : '.' ∉ bodyBase64 b := b64UrlEncode_ne_dot _
  have h3 : '.' ∉ signatureBase64 sig := b64UrlEncode_ne_dot _
  simp only [List.append_assoc, List.cons_append]
  rw [jsSplit_append '.' _ h1, jsSplit_append '.' _ h2, jsSplit_no_sep '.' _ h3]

/-- Round trip of a signed token through its wire string, the shared engine
behind the claims about toString/fromString. -/
theorem fromString_toString (h : JwtHeader) (b : JwtBody) (sig : List Nat)
    (hh : wfHeader h = true) (hb : wfBody b = true) (hsig : ∀ x ∈ sig, x < 256) :
    Jwt.fromString (Jwt.toString ⟨h, b, some sig⟩) = .ok ⟨h, b, some sig⟩ := by
  unfold Jwt.fromString
  rw [jsSplit_toString]
  simp only [Option.bind_eq_bind, Option.some_bind]
  have hd0 : b64UrlDecode (headerBase64 h) = some (strToBytes (headerJson h)) :=
    b64UrlDecode_b64UrlEncode _ (strToBytes_lt_256 _ (wfStr_headerJson h hh))
  have hd1 : b64UrlDecode (bodyBase64 b) = some (strToBytes (bodyJson b)) :=
    b64UrlDecode_b64UrlEncode _ (strToBytes_lt_256 _ (wfStr_bodyJson b hb))
  have hd2 : b64UrlDecode (signatureBase64 sig) = some sig :=
    b64UrlDecode_b64UrlEncode _ hsig
  rw [hd0, hd1, hd2]
  simp only [Option.bind_eq_bind, Option.some_bind]
  rw [bytesToStr_strToBytes, bytesToStr_strToBytes, parseHeader_headerJson, parseBody_bodyJson]

/-!
CachingJwtProvider (src/Auth/AccessTokenProviders/CachingJwtProvider.ts).
JavaScript runs the body of getJwt synchronously up to its return, and runs
the then/catch handlers of the renewal promise when it settles; the model
therefore exposes two atomic transitions, `handleGetJwt` (one getJwt call at
a given clock reading) and `handleSettle` (the renewal promise settling).
`renewCount` and `outstanding` are ghost instrumentation counting renewal
callback invocations (total, and started-but-not-settled).
-/

def TOKEN_EXPIRATION_MARGIN : Nat := 5

/-- Value a renewal callback fulfills with: the source accepts a Jwt or its
wire string. -/
inductive TokenOrString where
  | tok (j : Jwt)
  | str (s : List Char)
deriving DecidableEq, Repr

/-- Value a renewal callback rejects with: a string or any non-string value. -/
inductive ErrVal where
  | str (s : List Char)
  | nonStr (code : Nat)
deriving DecidableEq, Repr

inductive RenewOutcome where
  | fulfilled (v : TokenOrString)
  | rejected (e : ErrVal)
deriving DecidableEq, Repr

structure ProviderState where
  cachedJwt : Option Jwt
  jwtPromise : Option Nat
  renewCount : Nat
  outstanding : Nat
  nextId : Nat
deriving DecidableEq, Repr

/-- What a getJwt call returns: an already-resolved promise carrying the
cached token, or a subscription to the pending renewal promise `pid`. -/
inductive GetJwtRes where
  | resolvedNow (j : Jwt)
  | pending (pid : Nat)
deriving DecidableEq, Repr

/-- The rejection value observed by callers: the callback's own rejection
value passed through, or the parse error thrown inside the then-handler. -/
inductive JsErr where
  | fromCallback (e : ErrVal)
  | tokenParse (te : TokenError)
deriving DecidableEq, Repr

/-- How the shared renewal promise settles for every subscriber. -/
inductive SettleRes where
  | resolved (j : Jwt)
  | rejectedWith (e : JsErr)
deriving DecidableEq, Repr

/-- The freshness test of getJwt: a cached token exists and is not expired
at now plus the margin. -/
def isFresh (st : ProviderState) (now : Nat) : Bool :=
  match st.cachedJwt with
  | some j => !(j.isExpired (addSeconds now TOKEN_EXPIRATION_MARGIN))
  | none => false

/-- The stale path of getJwt: join the pending renewal if one exists,
otherwise invoke the callback and install a fresh promise. -/
def startOrJoin (st : ProviderState) : GetJwtRes × ProviderState :=
  match st.jwtPromise with
  | some pid => (.pending pid, st)
  | none =>
    (.pending st.nextId,
     { st with jwtPromise := some st.nextId, renewCount := st.renewCount + 1,
               outstanding := st.outstanding + 1, nextId := st.nextId + 1 })

/-- One getJwt call at clock reading `now` (milliseconds). -/
def handleGetJwt (now : Nat) (st : ProviderState) : GetJwtRes × ProviderState :=
  match st.cachedJwt with
  | some j =>
    if !(j.isExpired (addSeconds now TOKEN_EXPIRATION_MARGIN)) then (.resolvedNow j, st)
    else startOrJoin st
  | none => startOrJoin st

/-- The then-handler's coercion: a string result goes through Jwt.fromString,
a token object is used as is. -/
def coerceToken : TokenOrString → Except TokenError Jwt
  | .tok j => .ok j
  | .str s => Jwt.fromString s

/-- The renewal promise settling: the then-handler caches the (coerced)
token and clears the in-flight marker; the catch-handler re-parses a string
rejection value, adopting it on success, and otherwise clears the marker and
rethrows the original value. -/
def handleSettle (st : ProviderState) (out : RenewOutcome) : SettleRes × ProviderState :=
  match out with
  | .fulfilled v =>
    match coerceToken v with
    | .ok j =>
      (.resolved j,
       { st with cachedJwt := some j, jwtPromise := none, outstanding := st.outstanding - 1 })
    | .error te =>
      (.rejectedWith (.tokenParse te),
       { st with jwtPromise := none, outstanding := st.outstanding - 1 })
  | .rejected e =>
    match e with
    | .str s =>
      match Jwt.fromString s with
      | .ok j =>
        (.resolved j,
         { st with cachedJwt := some j, jwtPromise := none, outstanding := st.outstanding - 1 })
      | .error _ =>
        (.rejectedWith (.fromCallback (.str s)),
         { st with jwtPromise := none, outstanding := st.outstanding - 1 })
    | .nonStr c =>
      (.rejectedWith (.fromCallback (.nonStr c)),
       { st with jwtPromise := none, outstanding := st.outstanding - 1 })

/-- Constructor state: an optional initial token pre-populates the cache. -/
def initProviderState (initialToken : Option Jwt) : ProviderState :=
  { cachedJwt := initialToken, jwtPromise := none, renewCount := 0, outstanding := 0,
    nextId := 0 }

inductive ProviderStep : ProviderState → ProviderState → Prop where
  | call (now : Nat) (st : ProviderState) : ProviderStep st (handleGetJwt now st).2
  | settle (st : ProviderState) (out : RenewOutcome) (h : st.jwtPromise.isSome = true) :
      ProviderStep st (handleSettle st out).2

inductive ReachableProvider : ProviderState → Prop where
  | init (tok : Option Jwt) : ReachableProvider (initProviderState tok)
  | step {st st' : ProviderState} :
      ReachableProvider st → ProviderStep st st' → ReachableProvider st'

/-- A burst of `n` getJwt calls at the same clock reading, with no settlement
in between. -/
def runCalls (now : Nat) (st : ProviderState) : Nat → List GetJwtRes × ProviderState
  | 0 => ([], st)
  | n + 1 =>
    let p := handleGetJwt now st
    let q := runCalls now p.2 n
    (p.1 :: q.1, q.2)

theorem handleGetJwt_inflight (now : Nat) (st : ProviderState) (pid : Nat)
    (h : st.jwtPromise = some pid) : (handleGetJwt now st).2 = st := by
  unfold handleGetJwt startOrJoin
  cases st.cachedJwt with
  | none => simp [h]
  | some j =>
    simp only [h]
    split
    · rfl
    · rfl

theorem handleGetJwt_fresh (now : Nat) (st : ProviderState) (j : Jwt)
    (hc : st.cachedJwt = some j)
    (he : j.isExpired (addSeconds now TOKEN_EXPIRATION_MARGIN) = false) :
    handleGetJwt now st = (.resolvedNow j, st) := by
  unfold handleGetJwt
  rw [hc]
  simp [he]

theorem handleGetJwt_start (now : Nat) (st : ProviderState)
    (hs : isFresh st now = false) (hp : st.jwtPromise = none) :
    handleGetJwt now st =
      (.pending st.nextId,
       { st with jwtPromise := some st.nextId, renewCount := st.renewCount + 1,
                 outstanding := st.outstanding + 1, nextId := st.nextId + 1 }) := by
  unfold handleGetJwt startOrJoin
  unfold isFresh at hs
  cases hcj : st.cachedJwt with
  | none => simp [hp]
  | some j =>
    rw [hcj] at hs
    simp only [Bool.not_eq_true'] at hs
    simp [hs, hp]

theorem handleGetJwt_join (now : Nat) (st : ProviderState) (pid : Nat)
    (hs : isFresh st now = false) (hp : st.jwtPromise = some pid) :
    handleGetJwt now st = (.pending pid, st) := by
  unfold handleGetJwt startOrJoin
  unfold isFresh at hs
  cases hcj : st.cachedJwt with
  | none => simp [hp]
  | some j =>
    rw [hcj] at hs
    simp only [Bool.not_eq_true'] at hs
    simp [hs, hp]

theorem handleSettle_clears (st : ProviderState) (out : RenewOutcome) :
    (handleSettle st out).2.jwtPromise = none := by
  unfold handleSettle
  rcases out with v | e
  · cases hcv : coerceToken v <;> simp [hcv]
  · rcases e with s | c
    · cases hfs : Jwt.fromString s <;> simp [hfs]
    · simp

theorem isFresh_eq_of_cache (st st' : ProviderState) (now : Nat)
    (h : st'.cachedJwt = st.cachedJwt) : isFresh st' now = isFresh st now := by
  unfold isFresh
  rw [h]

theorem runCalls_inflight (now : Nat) (pid : Nat) :
    ∀ (n : Nat) (st : ProviderState), isFresh st now = false → st.jwtPromise = some pid →
    runCalls now st n = (List.replicate n (.pending pid), st) := by
  intro n
  induction n with
  | zero => intro st _ _; rfl
  | succ m ih =>
    intro st hs hp
    have hcall := handleGetJwt_join now st pid hs hp
    simp only [runCalls, hcall, List.replicate]
    rw [ih st hs hp]

theorem runCalls_burst (now : Nat) (st : ProviderState) (n : Nat)
    (hs : isFresh st now = false) (hp : st.jwtPromise = none) :
    runCalls now st (n + 1)
      = (List.replicate (n + 1) (.pending st.nextId),
         { st with jwtPromise := some st.nextId, renewCount := st.renewCount + 1,
                   outstanding := st.outstanding + 1, nextId := st.nextId + 1 }) := by
  have hcall := handleGetJwt_start now st hs hp
  simp only [runCalls, hcall, List.replicate]
  rw [runCalls_inflight now st.nextId n _ (isFresh_eq_of_cache st _ now rfl ▸ hs) rfl]

theorem outstanding_step (pre post : ProviderState)
    (ih : pre.outstanding = (if pre.jwtPromise.isSome then 1 else 0))
    (hstep : ProviderStep pre post) :
    post.outstanding = (if post.jwtPromise.isSome then 1 else 0) := by
  cases hstep with
  | call now =>
    cases hcj : pre.cachedJwt with
    | none =>
      cases hp : pre.jwtPromise with
      | none =>
        rw [hp] at ih
        simp only [Option.isSome_none, Bool.false_eq_true, if_false] at ih
        simp [handleGetJwt, startOrJoin, hcj, hp, ih]
      | some pid =>
        rw [hp] at ih
        simp only [Option.isSome_some, if_true] at ih
        simp [handleGetJwt, startOrJoin, hcj, hp, ih]
    | some j =>
      by_cases he : j.isExpired (addSeconds now TOKEN_EXPIRATION_MARGIN)
      · cases hp : pre.jwtPromise with
        | none =>
          rw [hp] at ih
          simp only [Option.isSome_none, Bool.false_eq_true, if_false] at ih
          simp [handleGetJwt, startOrJoin, hcj, hp, he, ih]
        | some pid =>
          rw [hp] at ih
          simp only [Option.isSome_some, if_true] at ih
          simp [handleGetJwt, startOrJoin, hcj, hp, he, ih]
      · simp [handleGetJwt, startOrJoin, hcj, he, ih]
  | settle pre2 out hsome =>
    obtain ⟨pid, hp⟩ := Option.isSome_iff_exists.mp hsome
    rw [hp] at ih
    simp only [Option.isSome_some, if_true] at ih
    unfold handleSettle
    rcases out with v | e
    · cases hcv : coerceToken v <;> simp [hcv, ih]
    · rcases e with s2 | c
      · cases hfs : Jwt.fromString s2 <;> simp [hfs, ih]
      · simp [ih]

theorem outstanding_invariant (st : ProviderState) (h : ReachableProvider st) :
    st.outstanding = (if st.jwtPromise.isSome then 1 else 0) := by
  induction h with
  | init tok => rfl
  | step hre hstep ih => exact outstanding_step _ _ ih hstep

/-!
KeyEntryStorage (the repository's key-entry persistence module): entries
serialized to a JSON envelope with the value re-encoded as standard base64
and both dates as strings, persisted through a name-to-bytes storage
adapter.  Dates are modelled as Nat timestamps; their ISO-8601 string form,
produced and revived by the JavaScript Date built-ins, is modelled by an
injective timestamp-to-digits codec.
-/

structure KeyEntry where
  name : List Char
  value : List Nat
  meta : Option (List (List Char × List Char))
  creationDate : Nat
  modificationDate : Nat
deriving DecidableEq, Repr

inductive KeyStorageError where
  | validationError
  | keyEntryAlreadyExists
  | keyEntryDoesNotExist
  | invalidKeyEntry
deriving DecidableEq, Repr

def nameKey : List Char := "name".toList

def metaKey : List Char := "meta".toList

def creationDateKey : List Char := "creationDate".toList

def modificationDateKey : List Char := "modificationDate".toList

def valueKey : List Char := "value".toList

/-- Modelled from the spec: the standard date serialization used by
JSON.stringify on Date values (ISO-8601 text), modelled as an injective
encoding of the millisecond timestamp. -/
def dateToStr (d : Nat) : List Char := natToDec d

/-- Modelled from the spec: reviving a serialized date string back to a
timestamp (the reviver's new Date(value)). -/
def dateFromStr (s : List Char) : Option Nat :=
  match parseNatTok s with
  | some (n, []) => some n
  | _ => none

/-- The three field names the source's JSON.parse reviver rewrites wherever
they occur in the parsed tree. -/
def revivedKeys : List (List Char) := [valueKey, creationDateKey, modificationDateKey]

/-- A stored entry's meta is revival-stable when none of its keys is one of
the three names the reviver rewrites: on such entries the tree-wide revival
performed by the source touches exactly the top-level envelope fields. -/
def metaAvoidsRevivedKeys : Option (List (List Char × List Char)) → Bool
  | none => true
  | some m => m.all (fun p => decide (p.1 ∉ revivedKeys))

/-- The optional `meta` field: omitted from the JSON when absent. -/
def metaPart : Option (List (List Char × List Char)) → List Char
  | none => []
  | some m => ',' :: keyPre metaKey ++ strObjJson m

/-- serializeKeyEntry: UTF-8 JSON with fields name, meta (when present),
creationDate, modificationDate, and value (base64 text) last, matching the
object spread in the source. -/
def serializeKeyEntry (e : KeyEntry) : List Nat :=
  strToBytes (
    lbraceC :: keyPre nameKey ++ strLit e.name
      ++ metaPart e.meta
      ++ ',' :: keyPre creationDateKey ++ strLit (dateToStr e.creationDate)
      ++ ',' :: keyPre modificationDateKey ++ strLit (dateToStr e.modificationDate)
      ++ ',' :: keyPre valueKey ++ strLit (b64StdEncode e.value)
      ++ [rbraceC])

def parseKeyEntryTail (nm : List Char) (meta : Option (List (List Char × List Char)))
    (s : List Char) : Option KeyEntry := do
  let s ← expectL (',' :: keyPre creationDateKey) s
  let (cd, s) ← parseJStr s
  let cdv ← dateFromStr cd
  let s ← expectL (',' :: keyPre modificationDateKey) s
  let (md, s) ← parseJStr s
  let mdv ← dateFromStr md
  let s ← expectL (',' :: keyPre valueKey) s
  let (vs, s) ← parseJStr s
  let vb ← b64StdDecode vs
  let s ← expectL [rbraceC] s
  if s = [] then some ⟨nm, vb, meta, cdv, mdv⟩ else none

/-- JSON.parse with the reviver, on the revival-stable fragment of the
envelope: `value` revived from base64 and the two date fields revived to
timestamps, at the top level.  The source reviver applies these rewrites to
every occurrence of those key names anywhere in the parsed tree, so a meta
that uses one of them gets its string value replaced by a byte buffer or a
date object — values outside this embedding's string-valued meta type (and
dependent on the Date built-in's parsing of arbitrary strings).  Theorems
that deserialize therefore quantify over entries whose meta avoids those
key names (metaAvoidsRevivedKeys), where this parser and the source reviver
agree. -/
def parseKeyEntry (s : List Char) : Option KeyEntry := do
  let s ← expectL (lbraceC :: keyPre nameKey) s
  let (nm, s) ← parseJStr s
  match expectL (',' :: keyPre metaKey) s with
  | some s2 => do
    let (m, s3) ← parseStrObj s2
    parseKeyEntryTail nm (some m) s3
  | none => parseKeyEntryTail nm none s

/-- deserializeKeyEntry: any parse failure collapses to InvalidKeyEntryError. -/
def deserializeKeyEntry (data : List Nat) : Except KeyStorageError KeyEntry :=
  match parseKeyEntry (bytesToStr data) with
  | some e => .ok e
  | none => .error .invalidKeyEntry

/-- Modelled from the spec: the storage adapter consumed by KeyEntryStorage
(§6), a flat namespace of name-to-bytes entries. -/
abbrev AdapterState := List (List Char × List Nat)

def adapterLoad : AdapterState → List Char → Option (List Nat)
  | [], _ => none
  | p :: rest, n => if p.1 = n then some p.2 else adapterLoad rest n

def adapterUpdate (st : AdapterState) (n : List Char) (d : List Nat) : AdapterState :=
  st.map (fun p => if p.1 = n then (n, d) else p)

/-- KeyEntryStorage.save: validates the name (JavaScript falsiness of a
string is emptiness; a byte-array value is always truthy, so the value check
can only reject data forms outside this embedding), builds the entry with
the current timestamp for both dates, serializes, and delegates to the
adapter's create-if-absent store, translating its already-exists signal. -/
def keyEntrySave (st : AdapterState) (now : Nat) (name : List Char) (value : List Nat)
    (meta : Option (List (List Char × List Char))) :
    Except KeyStorageError (KeyEntry × AdapterState) :=
  if name = [] then .error .validationError
  else
    let keyEntry : KeyEntry := ⟨name, value, meta, now, now⟩
    match adapterLoad st name with
    | some _ => .error .keyEntryAlreadyExists
    | none => .ok (keyEntry, (name, serializeKeyEntry keyEntry) :: st)

/-- KeyEntryStorage.load: adapter miss is null, a hit is deserialized. -/
def keyEntryLoad (st : AdapterState) (name : List Char) :
    Except KeyStorageError (Option KeyEntry) :=
  if name = [] then .error .validationError
  else
    match adapterLoad st name with
    | none => .ok none
    | some data =>
      match deserializeKeyEntry data with
      | .ok e => .ok (some e)
      | .error er => .error er

/-- KeyEntryStorage.update: requires value or meta, loads the existing entry
(missing name is an error), merges — value replaced when given, meta
replaced when given, creationDate kept, modificationDate refreshed — and
persists the merged entry through the adapter's update. -/
def keyEntryUpdate (st : AdapterState) (now : Nat) (name : List Char)
    (value? : Option (List Nat)) (meta? : Option (List (List Char × List Char))) :
    Except KeyStorageError (KeyEntry × AdapterState) :=
  if name = [] then .error .validationError
  else if value?.isNone && meta?.isNone then .error .validationError
  else
    match adapterLoad st name with
    | none => .error .keyEntryDoesNotExist
    | some data =>
      match deserializeKeyEntry data with
      | .error er => .error er
      | .ok entry =>
        let updatedEntry : KeyEntry :=
          { entry with
            value := match value? with | some v => v | none => entry.value,
            meta := match meta? with | some m => some m | none => entry.meta,
            modificationDate := now }
        .ok (updatedEntry, adapterUpdate st name (serializeKeyEntry updatedEntry))

def wfEntry (e : KeyEntry) : Bool :=
  wfStr e.name && wfBytes e.value &&
    (match e.meta with
     | none => true
     | some m => wfMeta m)

theorem dateFromStr_dateToStr (d : Nat) : dateFromStr (dateToStr d) = some d := by
  unfold dateFromStr dateToStr
  have h := parseNatTok_natToDec d [] (by intro c hc; simp at hc)
  rw [List.append_nil] at h
  rw [h]

theorem expectL_none_extend :
    ∀ (pat pre r : List Char), pat.length ≤ pre.length →
      expectL pat pre = none → expectL pat (pre ++ r) = none := by
  intro pat
  induction pat with
  | nil =>
    intro pre r _ hnone
    simp [expectL] at hnone
  | cons c cs ih =>
    intro pre r hlen hnone
    cases pre with
    | nil => simp at hlen
    | cons x xs =>
      simp only [expectL, List.cons_append] at hnone ⊢
      by_cases hx : x = c
      · rw [if_pos hx] at hnone ⊢
        exact ih xs r (by simpa using hlen) hnone
      · rw [if_neg hx]

theorem parseKeyEntryTail_print (nm : List Char)
    (meta : Option (List (List Char × List Char))) (cd md : Nat) (value : List Nat)
    (hv : ∀ b ∈ value, b < 256) :
    parseKeyEntryTail nm meta
      ((',' :: keyPre creationDateKey) ++ (strLit (dateToStr cd)
        ++ ((',' :: keyPre modificationDateKey) ++ (strLit (dateToStr md)
        ++ ((',' :: keyPre valueKey) ++ (strLit (b64StdEncode value) ++ [rbraceC]))))))
      = some ⟨nm, value, meta, cd, md⟩ := by
  unfold parseKeyEntryTail
  rw [expectL_append]
  simp only [Option.bind_eq_bind, Option.some_bind]
  rw [parseJStr_strLit]
  simp only [Option.bind_eq_bind, Option.some_bind]
  rw [dateFromStr_dateToStr]
  simp only [Option.bind_eq_bind, Option.some_bind]
  rw [expectL_append]
  simp only [Option.bind_eq_bind, Option.some_bind]
  rw [parseJStr_strLit]
  simp only [Option.bind_eq_bind, Option.some_bind]
  rw [dateFromStr_dateToStr]
  simp only [Option.bind_eq_bind, Option.some_bind]
  rw [expectL_append]
  simp only [Option.bind_eq_bind, Option.some_bind]
  rw [parseJStr_strLit]
  simp only [Option.bind_eq_bind, Option.some_bind]
  rw [b64StdDecode_b64StdEncode _ hv]
  simp only [Option.bind_eq_bind, Option.some_bind]
  have hrb : expectL [rbraceC] [rbraceC] = some [] := by decide
  rw [hrb]
  simp only [Option.bind_eq_bind, Option.some_bind]
  simp

theorem parseKeyEntry_print (e : KeyEntry) (hv : ∀ b ∈ e.value, b < 256) :
    parseKeyEntry (bytesToStr (serializeKeyEntry e)) = some e := by
  unfold serializeKeyEntry
  rw [bytesToStr_strToBytes]
  unfold parseKeyEntry
  simp only [List.append_assoc]
  rw [expectL_append]
  simp only [Option.bind_eq_bind, Option.some_bind]
  rw [parseJStr_strLit]
  simp only [Option.bind_eq_bind, Option.some_bind]
  cases hmeta : e.meta with
  | none =>
    simp only [metaPart, List.nil_append]
    rw [expectL_none_extend (',' :: keyPre metaKey) (',' :: keyPre creationDateKey) _
      (by decide) (by decide)]
    dsimp only
    rw [parseKeyEntryTail_print e.name none e.creationDate e.modificationDate e.value hv]
    rw [← hmeta]
  | some m =>
    simp only [metaPart, List.append_assoc]
    rw [expectL_append]
    dsimp only
    rw [parseStrObj_print]
    simp only [Option.bind_eq_bind, Option.some_bind]
    rw [parseKeyEntryTail_print e.name (some m) e.creationDate e.modificationDate e.value hv]
    rw [← hmeta]

theorem deserializeKeyEntry_serializeKeyEntry (e : KeyEntry) (hv : ∀ b ∈ e.value, b < 256) :
    deserializeKeyEntry (serializeKeyEntry e) = .ok e := by
  unfold deserializeKeyEntry
  rw [parseKeyEntry_print e hv]

/-!
Concrete fixtures used by witnesses and counterexamples.
-/

deriving instance DecidableEq for Except

set_option maxRecDepth 1000000

/-- A concrete well-formed token header. -/
def hdr0 : JwtHeader := ⟨"VEDS512".toList, "JWT".toList, "virgil-jwt;v=1".toList, "key1".toList⟩

/-- A concrete well-formed token body with the required subject and issuer
forms. -/
def bdy0 : JwtBody := ⟨"virgil-app1".toList, "identity-bob".toList, 100, 200, none⟩

/-- A concrete body whose subject and issuer lack their required markers. -/
def bdyNoTag : JwtBody := ⟨"app1".toList, "bob".toList, 100, 200, none⟩

/-- C2. Round-trip law: for every token built from a valid (header, body,
signature) triple with the signature present, parsing the token's toString()
output yields a token with header, body and signature bytes identical to the
original.  Validity is the fragment on which the byte-level model is exact:
printable-ASCII text fields and byte-valued signature entries. -/
theorem claim2_roundtrip_law (h : JwtHeader) (b : JwtBody) (sig : List Nat)
    (hh : wfHeader h = true) (hb : wfBody b = true) (hsig : ∀ x ∈ sig, x < 256) :
    Jwt.fromString (Jwt.toString ⟨h, b, some sig⟩) = .ok ⟨h, b, some sig⟩ :=
  fromString_toString h b sig hh hb hsig

theorem claim2_roundtrip_law_witness :
    Jwt.fromString (Jwt.toString ⟨hdr0, bdy0, some [255, 0, 7]⟩)
      = .ok ⟨hdr0, bdy0, some [255, 0, 7]⟩ :=
  claim2_roundtrip_law hdr0 bdy0 [255, 0, 7] (by decide) (by decide) (by decide)

/-- C5, counterexample to the claim as stated: a wire string whose three
dot-separated parts include an empty third part — so it does not split into
3 non-empty parts — is nevertheless parsed successfully (with an empty
signature), not rejected. -/
theorem claim5_counterexample :
    jsSplit '.' (Jwt.toString ⟨hdr0, bdy0, some []⟩)
        = [headerBase64 hdr0, bodyBase64 bdy0, []] ∧
    Jwt.fromString (Jwt.toString ⟨hdr0, bdy0, some []⟩) = .ok ⟨hdr0, bdy0, some []⟩ :=
  ⟨jsSplit_toString hdr0 bdy0 [], fromString_toString hdr0 bdy0 [] (by decide) (by decide)
    (by intro x hx; simp at hx)⟩

/-- C5, amended: parsing fails with the single MalformedTokenError kind for
every input that does not split on '.' into exactly 3 parts (parts may be
empty); when it does split into 3 parts it fails the same way whenever
base64url decoding or JSON parsing of a part fails — an empty header or body
part fails at the JSON stage, while an empty signature part is accepted; no
finer distinction among failure causes is made (every error is
MalformedTokenError). -/
theorem claim5_token_parsing_errors (s : List Char) :
    ((jsSplit '.' s).length ≠ 3 → Jwt.fromString s = .error .malformedToken) ∧
    (∀ e, Jwt.fromString s = .error e → e = .malformedToken) ∧
    (∀ p1 p2, jsSplit '.' s = [[], p1, p2] → Jwt.fromString s = .error .malformedToken) ∧
    (∀ p0 p2, jsSplit '.' s = [p0, [], p2] → Jwt.fromString s = .error .malformedToken) ∧
    (∀ p0 p1 p2, jsSplit '.' s = [p0, p1, p2] →
      b64UrlDecode p0 = none ∨ b64UrlDecode p1 = none ∨ b64UrlDecode p2 = none →
      Jwt.fromString s = .error .malformedToken) ∧
    (∀ p0 p1 p2 hb bb, jsSplit '.' s = [p0, p1, p2] →
      b64UrlDecode p0 = some hb → b64UrlDecode p1 = some bb →
      parseHeader (bytesToStr hb) = none ∨ parseBody (bytesToStr bb) = none →
      Jwt.fromString s = .error .malformedToken) := by
  refine ⟨?_, ?_, ?_, ?_, ?_, ?_⟩
  · intro hlen
    unfold Jwt.fromString
    split
    · next p0 p1 p2 heq => exact absurd (by rw [heq]; rfl) hlen
    · rfl
  · intro e he
    unfold Jwt.fromString at he
    split at he
    · split at he
      · split at he <;> simp_all
      · simp_all
    · simp_all
  · intro p1 p2 hl
    unfold Jwt.fromString
    rw [hl]
    have h0 : b64UrlDecode [] = some [] := rfl
    have hph : parseHeader (bytesToStr []) = none := rfl
    cases hd1 : b64UrlDecode p1 <;> cases hd2 : b64UrlDecode p2 <;>
      simp [h0, hd1, hd2, hph]
  · intro p0 p2 hl
    unfold Jwt.fromString
    rw [hl]
    have h0 : b64UrlDecode [] = some [] := rfl
    have hpb : parseBody (bytesToStr []) = none := rfl
    cases hd0 : b64UrlDecode p0 <;> cases hd2 : b64UrlDecode p2 <;>
      simp [h0, hd0, hd2, hpb]
  · intro p0 p1 p2 hl hnone
    unfold Jwt.fromString
    rw [hl]
    dsimp only
    rcases hnone with h0 | h1 | h2
    · rw [h0]
    · rw [h1]
      cases b64UrlDecode p0 <;> rfl
    · rw [h2]
      cases b64UrlDecode p0 <;> cases b64UrlDecode p1 <;> rfl
  · intro p0 p1 p2 hbb bbb hl hd0 hd1 hpn
    unfold Jwt.fromString
    rw [hl]
    dsimp only
    rw [hd0, hd1]
    cases hd2 : b64UrlDecode p2
    · rfl
    · dsimp only
      rcases hpn with hp | hp
      · rw [hp]
      · rw [hp]
        cases parseHeader (bytesToStr hbb) <;> rfl

theorem claim5_token_parsing_errors_witness :
    Jwt.fromString ("not.a.valid.token".toList) = .error .malformedToken ∧
    Jwt.fromString ("onepart".toList) = .error .malformedToken :=
  ⟨(claim5_token_parsing_errors ("not.a.valid.token".toList)).1 (by decide),
   (claim5_token_parsing_errors ("onepart".toList)).1 (by decide)⟩

/-- C8. Lazy marker validation: identity() strips the subject marker from
body.sub and fails with the format error exactly when the marker is absent;
appId() does the same for body.iss and the issuer marker; and a token whose
subject and issuer lack their markers still parses successfully — the error
is raised only by identity()/appId(), not at parse time. -/
theorem claim8_lazy_marker_validation :
    (∀ j : Jwt, startsWith subjectTag j.body.sub = true →
        j.identity = .ok (j.body.sub.drop subjectTag.length)) ∧
    (∀ j : Jwt, startsWith subjectTag j.body.sub = false →
        j.identity = .error .tokenFormat) ∧
    (∀ j : Jwt, startsWith issuerTag j.body.iss = true →
        j.appId = .ok (j.body.iss.drop issuerTag.length)) ∧
    (∀ j : Jwt, startsWith issuerTag j.body.iss = false →
        j.appId = .error .tokenFormat) ∧
    (Jwt.fromString (Jwt.toString ⟨hdr0, bdyNoTag, some [1]⟩)
        = .ok ⟨hdr0, bdyNoTag, some [1]⟩ ∧
      startsWith subjectTag bdyNoTag.sub = false ∧
      startsWith issuerTag bdyNoTag.iss = false) := by
  refine ⟨?_, ?_, ?_, ?_, ?_, ?_, ?_⟩
  · intro j hj
    unfold Jwt.identity
    rw [if_pos hj]
  · intro j hj
    unfold Jwt.identity
    rw [if_neg (by simp [hj])]
  · intro j hj
    unfold Jwt.appId
    rw [if_pos hj]
  · intro j hj
    unfold Jwt.appId
    rw [if_neg (by simp [hj])]
  · exact fromString_toString hdr0 bdyNoTag [1] (by decide) (by decide) (by decide)
  · decide
  · decide

theorem claim8_lazy_marker_validation_witness :
    ((⟨hdr0, bdy0, none⟩ : Jwt).identity = .ok ("bob".toList) ∧
     (⟨hdr0, bdy0, none⟩ : Jwt).appId = .ok ("app1".toList)) ∧
    ((⟨hdr0, bdyNoTag, none⟩ : Jwt).identity = .error .tokenFormat ∧
     (⟨hdr0, bdyNoTag, none⟩ : Jwt).appId = .error .tokenFormat) :=
  ⟨⟨claim8_lazy_marker_validation.1 ⟨hdr0, bdy0, none⟩ (by decide),
    claim8_lazy_marker_validation.2.2.1 ⟨hdr0, bdy0, none⟩ (by decide)⟩,
   ⟨claim8_lazy_marker_validation.2.1 ⟨hdr0, bdyNoTag, none⟩ (by decide),
    claim8_lazy_marker_validation.2.2.2.1 ⟨hdr0, bdyNoTag, none⟩ (by decide)⟩⟩

/-- C9. Strict expiry: isExpired(atTime) holds exactly when body.exp is
strictly below the Unix seconds of atTime; a token whose exp equals the
current Unix seconds is not expired at that instant but is expired one
second later. -/
theorem claim9_strict_expiry :
    (∀ (j : Jwt) (t : Nat), j.isExpired t = true ↔ j.body.exp < getUnixTimestamp t) ∧
    (∀ (j : Jwt) (t : Nat), j.body.exp = getUnixTimestamp t →
        j.isExpired t = false ∧ j.isExpired (addSeconds t 1) = true) := by
  constructor
  · intro j t
    unfold Jwt.isExpired
    simp
  · intro j t hexp
    unfold Jwt.isExpired
    unfold getUnixTimestamp at hexp ⊢
    unfold addSeconds
    constructor
    · simp only [decide_eq_false_iff_not]
      omega
    · simp only [decide_eq_true_eq]
      omega

theorem claim9_strict_expiry_witness :
    ((⟨hdr0, bdy0, none⟩ : Jwt).isExpired 200000 = false ∧
     (⟨hdr0, bdy0, none⟩ : Jwt).isExpired (addSeconds 200000 1) = true) ∧
    ((⟨hdr0, bdy0, none⟩ : Jwt).isExpired 300500 = true ↔
      (200 : Nat) < getUnixTimestamp 300500) :=
  ⟨claim9_strict_expiry.2 ⟨hdr0, bdy0, none⟩ 200000 (by decide),
   claim9_strict_expiry.1 ⟨hdr0, bdy0, none⟩ 300500⟩

/-- C10. Unsigned tokens break the round-trip law: a token constructed
without a signature serializes to a two-segment string — no trailing dot,
no signature segment — and parsing that string fails, because the parser
requires exactly 3 dot-separated parts. -/
theorem claim10_unsigned_two_segments (h : JwtHeader) (b : JwtBody) :
    Jwt.toString ⟨h, b, none⟩ = headerBase64 h ++ '.' :: bodyBase64 b ∧
    (jsSplit '.' (Jwt.toString ⟨h, b, none⟩)).length = 2 ∧
    Jwt.fromString (Jwt.toString ⟨h, b, none⟩) = .error .malformedToken := by
  have htos : Jwt.toString ⟨h, b, none⟩ = headerBase64 h ++ '.' :: bodyBase64 b := rfl
  have h1 : '.' ∉ headerBase64 h := b64UrlEncode_ne_dot _
  have h2 : '.' ∉ bodyBase64 b := b64UrlEncode_ne_dot _
  have hsplit : jsSplit '.' (Jwt.toString ⟨h, b, none⟩)
      = [headerBase64 h, bodyBase64 b] := by
    rw [htos, jsSplit_append '.' _ h1, jsSplit_no_sep '.' _ h2]
  refine ⟨htos, by rw [hsplit]; rfl, ?_⟩
  unfold Jwt.fromString
  rw [hsplit]

/-- C1. Single-flight renewal: every reachable provider state has at most
one outstanding renewal-callback call; a burst of n+1 getJwt calls on a
stale or empty cache with no renewal in flight invokes the callback exactly
once and subscribes every call to that single pending promise; a call
arriving while a renewal is in flight leaves the state (and hence the
invocation count) unchanged; settlement hands every subscriber the same
token and clears the in-flight marker, so only afterwards can a renewal
start again. -/
theorem claim1_single_flight_renewal :
    (∀ st : ProviderState, ReachableProvider st → st.outstanding ≤ 1) ∧
    (∀ (now : Nat) (st : ProviderState) (n : Nat),
      isFresh st now = false → st.jwtPromise = none →
      runCalls now st (n + 1)
        = (List.replicate (n + 1) (.pending st.nextId),
           { st with jwtPromise := some st.nextId, renewCount := st.renewCount + 1,
                     outstanding := st.outstanding + 1, nextId := st.nextId + 1 })) ∧
    (∀ (now : Nat) (st : ProviderState) (pid : Nat), st.jwtPromise = some pid →
      (handleGetJwt now st).2 = st) ∧
    (∀ (st : ProviderState) (j : Jwt),
      handleSettle st (.fulfilled (.tok j))
        = (.resolved j,
           { st with cachedJwt := some j, jwtPromise := none,
                     outstanding := st.outstanding - 1 })) ∧
    (∀ (st : ProviderState) (out : RenewOutcome), (handleSettle st out).2.jwtPromise = none) := by
  refine ⟨?_, ?_, ?_, ?_, ?_⟩
  · intro st hre
    rw [outstanding_invariant st hre]
    split <;> omega
  · exact fun now st n hs hp => runCalls_burst now st n hs hp
  · exact fun now st pid hp => handleGetJwt_inflight now st pid hp
  · intro st j
    rfl
  · exact fun st out => handleSettle_clears st out

def pstate1 : ProviderState := ⟨none, some 0, 1, 1, 1⟩

theorem claim1_single_flight_renewal_witness :
    runCalls 0 (initProviderState none) 10 = (List.replicate 10 (.pending 0), pstate1) ∧
    (initProviderState none).outstanding ≤ 1 ∧
    (handleGetJwt 0 pstate1).2 = pstate1 ∧
    handleSettle pstate1 (.fulfilled (.tok ⟨hdr0, bdy0, none⟩))
      = (.resolved ⟨hdr0, bdy0, none⟩, ⟨some ⟨hdr0, bdy0, none⟩, none, 1, 0, 1⟩) :=
  ⟨claim1_single_flight_renewal.2.1 0 (initProviderState none) 9 (by decide) (by decide),
   claim1_single_flight_renewal.1 (initProviderState none) (.init none),
   claim1_single_flight_renewal.2.2.1 0 pstate1 0 (by decide),
   claim1_single_flight_renewal.2.2.2.1 pstate1 ⟨hdr0, bdy0, none⟩⟩

/-- C3. String-rejection fallback: when the renewal callback rejects with a
string that parses as a valid token wire string, the settlement resolves
every caller with the parsed token and caches it; for a string that does
not parse, and for any non-string rejection value, the in-flight marker is
cleared, the cache is untouched, and the original rejection value is
propagated unchanged. -/
theorem claim3_string_rejection_fallback :
    (∀ (st : ProviderState) (s : List Char) (j : Jwt), Jwt.fromString s = .ok j →
      handleSettle st (.rejected (.str s))
        = (.resolved j,
           { st with cachedJwt := some j, jwtPromise := none,
                     outstanding := st.outstanding - 1 })) ∧
    (∀ (st : ProviderState) (s : List Char) (te : TokenError),
      Jwt.fromString s = .error te →
      handleSettle st (.rejected (.str s))
        = (.rejectedWith (.fromCallback (.str s)),
           { st with jwtPromise := none, outstanding := st.outstanding - 1 })) ∧
    (∀ (st : ProviderState) (c : Nat),
      handleSettle st (.rejected (.nonStr c))
        = (.rejectedWith (.fromCallback (.nonStr c)),
           { st with jwtPromise := none, outstanding := st.outstanding - 1 })) := by
  refine ⟨?_, ?_, ?_⟩
  · intro st s j hok
    unfold handleSettle
    dsimp only
    rw [hok]
  · intro st s te herr
    unfold handleSettle
    dsimp only
    rw [herr]
  · intro st c
    rfl

theorem claim3_string_rejection_fallback_witness :
    handleSettle (initProviderState none)
        (.rejected (.str (Jwt.toString ⟨hdr0, bdy0, some [1]⟩)))
      = (.resolved ⟨hdr0, bdy0, some [1]⟩, ⟨some ⟨hdr0, bdy0, some [1]⟩, none, 0, 0, 0⟩) ∧
    handleSettle (initProviderState none) (.rejected (.str ("oops".toList)))
      = (.rejectedWith (.fromCallback (.str ("oops".toList))), ⟨none, none, 0, 0, 0⟩) ∧
    handleSettle (initProviderState none) (.rejected (.nonStr 42))
      = (.rejectedWith (.fromCallback (.nonStr 42)), ⟨none, none, 0, 0, 0⟩) :=
  ⟨claim3_string_rejection_fallback.1 (initProviderState none) _ ⟨hdr0, bdy0, some [1]⟩
      (fromString_toString hdr0 bdy0 [1] (by decide) (by decide) (by decide)),
   claim3_string_rejection_fallback.2.1 (initProviderState none) ("oops".toList)
      .malformedToken (by decide),
   claim3_string_rejection_fallback.2.2 (initProviderState none) 42⟩

/-- C4. Cache freshness decision: a getJwt call returns the cached token
immediately, changing nothing, when the cache holds a token not expired at
now plus the 5-second margin; otherwise the call returns a subscription to a
pending renewal; a successful renewal result — a string coerced through
Jwt.fromString, a token taken as is — becomes the new cached token and is
what the call resolves with. -/
theorem claim4_cache_freshness :
    (∀ (now : Nat) (st : ProviderState) (j : Jwt), st.cachedJwt = some j →
      j.isExpired (addSeconds now 5) = false → handleGetJwt now st = (.resolvedNow j, st)) ∧
    (∀ (now : Nat) (st : ProviderState), isFresh st now = false →
      ∃ pid, (handleGetJwt now st).1 = .pending pid ∧
        (handleGetJwt now st).2.jwtPromise = some pid) ∧
    (∀ (st : ProviderState) (v : TokenOrString) (j : Jwt), coerceToken v = .ok j →
      handleSettle st (.fulfilled v)
        = (.resolved j,
           { st with cachedJwt := some j, jwtPromise := none,
                     outstanding := st.outstanding - 1 })) ∧
    (∀ s : List Char, coerceToken (.str s) = Jwt.fromString s) ∧
    TOKEN_EXPIRATION_MARGIN = 5 := by
  refine ⟨?_, ?_, ?_, ?_, rfl⟩
  · intro now st j hc he
    exact handleGetJwt_fresh now st j hc he
  · intro now st hs
    cases hp : st.jwtPromise with
    | some pid =>
      refine ⟨pid, ?_, ?_⟩
      · rw [handleGetJwt_join now st pid hs hp]
      · rw [handleGetJwt_join now st pid hs hp]
        exact hp
    | none =>
      refine ⟨st.nextId, ?_, ?_⟩
      · rw [handleGetJwt_start now st hs hp]
      · rw [handleGetJwt_start now st hs hp]
  · intro st v j hok
    unfold handleSettle
    dsimp only
    rw [hok]
  · intro s
    rfl

def pstate2 : ProviderState := ⟨some ⟨hdr0, bdy0, none⟩, none, 0, 0, 0⟩

theorem claim4_cache_freshness_witness :
    handleGetJwt 0 pstate2 = (.resolvedNow ⟨hdr0, bdy0, none⟩, pstate2) ∧
    (∃ pid, (handleGetJwt 0 (initProviderState none)).1 = .pending pid ∧
      (handleGetJwt 0 (initProviderState none)).2.jwtPromise = some pid) ∧
    handleSettle (initProviderState none)
        (.fulfilled (.str (Jwt.toString ⟨hdr0, bdy0, some [1]⟩)))
      = (.resolved ⟨hdr0, bdy0, some [1]⟩, ⟨some ⟨hdr0, bdy0, some [1]⟩, none, 0, 0, 0⟩) :=
  ⟨claim4_cache_freshness.1 0 pstate2 ⟨hdr0, bdy0, none⟩ (by decide) (by decide),
   claim4_cache_freshness.2.1 0 (initProviderState none) (by decide),
   claim4_cache_freshness.2.2.1 (initProviderState none) _ ⟨hdr0, bdy0, some [1]⟩
     (by
       show coerceToken (.str (Jwt.toString ⟨hdr0, bdy0, some [1]⟩)) = _
       rw [claim4_cache_freshness.2.2.2.1]
       exact fromString_toString hdr0 bdy0 [1] (by decide) (by decide) (by decide))⟩

theorem adapterLoad_adapterUpdate (st : AdapterState) (name : List Char) (d : List Nat) :
    (∃ d0, adapterLoad st name = some d0) →
    adapterLoad (adapterUpdate st name d) name = some d := by
  induction st with
  | nil =>
    intro ⟨d0, h⟩
    simp [adapterLoad] at h
  | cons p rest ih =>
    intro ⟨d0, h⟩
    by_cases hp : p.1 = name
    · simp [adapterLoad, adapterUpdate, hp]
    · simp only [adapterUpdate, List.map_cons, if_neg hp]
      simp only [adapterLoad, if_neg hp] at h ⊢
      exact ih ⟨d0, h⟩

/-- C6. Save/load round-trip: saving a non-empty name with non-empty value
bytes and no meta, then loading that name, returns an entry whose value is
the saved raw bytes, whose creationDate equals its modificationDate, and
whose meta is absent.  The name is printable ASCII and the value bytes are
bytes — the fragment on which the byte-level serialization model is exact. -/
theorem claim6_save_load_roundtrip (st : AdapterState) (now : Nat) (name : List Char)
    (value : List Nat) (hname : name ≠ []) (_hval : value ≠ [])
    (hv : ∀ b ∈ value, b < 256) (habsent : adapterLoad st name = none) :
    keyEntrySave st now name value none
      = .ok (⟨name, value, none, now, now⟩,
             (name, serializeKeyEntry ⟨name, value, none, now, now⟩) :: st) ∧
    keyEntryLoad ((name, serializeKeyEntry ⟨name, value, none, now, now⟩) :: st) name
      = .ok (some ⟨name, value, none, now, now⟩) ∧
    (⟨name, value, none, now, now⟩ : KeyEntry).creationDate
      = (⟨name, value, none, now, now⟩ : KeyEntry).modificationDate ∧
    (⟨name, value, none, now, now⟩ : KeyEntry).meta = none := by
  refine ⟨?_, ?_, rfl, rfl⟩
  · unfold keyEntrySave
    rw [if_neg hname]
    dsimp only
    rw [habsent]
  · unfold keyEntryLoad
    rw [if_neg hname]
    have hload : adapterLoad
        ((name, serializeKeyEntry ⟨name, value, none, now, now⟩) :: st) name
        = some (serializeKeyEntry ⟨name, value, none, now, now⟩) := by
      simp [adapterLoad]
    rw [hload]
    dsimp only
    rw [deserializeKeyEntry_serializeKeyEntry _ hv]

theorem claim6_save_load_roundtrip_witness :
    keyEntrySave [] 5 ("k".toList) [1, 2, 3] none
      = .ok (⟨"k".toList, [1, 2, 3], none, 5, 5⟩,
             [("k".toList, serializeKeyEntry ⟨"k".toList, [1, 2, 3], none, 5, 5⟩)]) ∧
    keyEntryLoad [("k".toList, serializeKeyEntry ⟨"k".toList, [1, 2, 3], none, 5, 5⟩)]
        ("k".toList)
      = .ok (some ⟨"k".toList, [1, 2, 3], none, 5, 5⟩) ∧
    (⟨"k".toList, [1, 2, 3], none, 5, 5⟩ : KeyEntry).creationDate
      = (⟨"k".toList, [1, 2, 3], none, 5, 5⟩ : KeyEntry).modificationDate ∧
    (⟨"k".toList, [1, 2, 3], none, 5, 5⟩ : KeyEntry).meta = none :=
  claim6_save_load_roundtrip [] 5 ("k".toList) [1, 2, 3] (by decide) (by decide)
    (by decide) rfl

/-- The merged entry described by the update contract: value replaced iff
given, meta replaced iff given, creationDate kept, modificationDate set to
the update time. -/
def mergedEntry (e0 : KeyEntry) (now' : Nat) (v? : Option (List Nat))
    (m? : Option (List (List Char × List Char))) : KeyEntry :=
  ⟨e0.name,
   (match v? with | some v => v | none => e0.value),
   (match m? with | some m => some m | none => e0.meta),
   e0.creationDate, now'⟩

/-- C7. Update contract: update fails with the validation error when
neither value nor meta is supplied; fails with the not-found error when no
entry with that name exists; and otherwise returns and persists the merged
entry — old value kept unless a new one is given, old meta kept unless a
new one is given, creationDate unchanged, modificationDate refreshed.  The
merge conjunct is scoped to stored entries whose meta avoids the three key
names the deserialization reviver rewrites: on a meta using value,
creationDate or modificationDate as a key, the source revives the nested
string into a byte buffer or date object, so the loaded and re-persisted
"old meta" is not the saved one verbatim — behavior outside this
embedding's string-valued meta type. -/
theorem claim7_update_contract :
    (∀ (st : AdapterState) (now : Nat) (name : List Char), name ≠ [] →
      keyEntryUpdate st now name none none = .error .validationError) ∧
    (∀ (st : AdapterState) (now : Nat) (name : List Char) (v? : Option (List Nat))
        (m? : Option (List (List Char × List Char))),
      name ≠ [] → (v?.isSome = true ∨ m?.isSome = true) → adapterLoad st name = none →
      keyEntryUpdate st now name v? m? = .error .keyEntryDoesNotExist) ∧
    (∀ (st : AdapterState) (now' : Nat) (name : List Char) (v? : Option (List Nat))
        (m? : Option (List (List Char × List Char))) (e0 : KeyEntry),
      name ≠ [] → (v?.isSome = true ∨ m?.isSome = true) →
      adapterLoad st name = some (serializeKeyEntry e0) → (∀ b ∈ e0.value, b < 256) →
      metaAvoidsRevivedKeys e0.meta = true →
      keyEntryUpdate st now' name v? m?
        = .ok (mergedEntry e0 now' v? m?,
               adapterUpdate st name (serializeKeyEntry (mergedEntry e0 now' v? m?))) ∧
      adapterLoad (adapterUpdate st name (serializeKeyEntry (mergedEntry e0 now' v? m?)))
          name
        = some (serializeKeyEntry (mergedEntry e0 now' v? m?))) := by
  have hsup_false : ∀ (v? : Option (List Nat))
      (m? : Option (List (List Char × List Char))),
      v?.isSome = true ∨ m?.isSome = true → (v?.isNone && m?.isNone) = false := by
    intro v? m? hsup
    rcases hsup with h | h <;> cases v? <;> cases m? <;> simp_all
  refine ⟨?_, ?_, ?_⟩
  · intro st now name hname
    unfold keyEntryUpdate
    rw [if_neg hname]
    rfl
  · intro st now name v? m? hname hsup habsent
    unfold keyEntryUpdate
    rw [if_neg hname, if_neg (by simp [hsup_false v? m? hsup]), habsent]
  · intro st now' name v? m? e0 hname hsup hfound hv _hmk
    constructor
    · unfold keyEntryUpdate
      rw [if_neg hname, if_neg (by simp [hsup_false v? m? hsup]), hfound]
      dsimp only
      rw [deserializeKeyEntry_serializeKeyEntry _ hv]
      rfl
    · exact adapterLoad_adapterUpdate st name _ ⟨_, hfound⟩

theorem claim7_update_contract_witness :
    keyEntryUpdate [] 9 ("k".toList) none none = .error .validationError ∧
    keyEntryUpdate [] 9 ("missing".toList) (some [1]) none
      = .error .keyEntryDoesNotExist ∧
    (keyEntryUpdate [("k".toList, serializeKeyEntry ⟨"k".toList, [1, 2, 3], none, 5, 5⟩)]
        9 ("k".toList) none (some [("a".toList, "b".toList)])
      = .ok (⟨"k".toList, [1, 2, 3], some [("a".toList, "b".toList)], 5, 9⟩,
             adapterUpdate
               [("k".toList, serializeKeyEntry ⟨"k".toList, [1, 2, 3], none, 5, 5⟩)]
               ("k".toList)
               (serializeKeyEntry
                 ⟨"k".toList, [1, 2, 3], some [("a".toList, "b".toList)], 5, 9⟩))) ∧
    (keyEntryUpdate
        [("k".toList,
          serializeKeyEntry ⟨"k".toList, [1, 2, 3], some [("x".toList, "y".toList)], 5, 5⟩)]
        9 ("k".toList) (some [9, 9]) none
      = .ok (⟨"k".toList, [9, 9], some [("x".toList, "y".toList)], 5, 9⟩,
             adapterUpdate
               [("k".toList,
                 serializeKeyEntry
                   ⟨"k".toList, [1, 2, 3], some [("x".toList, "y".toList)], 5, 5⟩)]
               ("k".toList)
               (serializeKeyEntry
                 ⟨"k".toList, [9, 9], some [("x".toList, "y".toList)], 5, 9⟩))) :=
  ⟨claim7_update_contract.1 [] 9 ("k".toList) (by decide),
   claim7_update_contract.2.1 [] 9 ("missing".toList) (some [1]) none (by decide)
     (Or.inl rfl) rfl,
   (claim7_update_contract.2.2
       [("k".toList, serializeKeyEntry ⟨"k".toList, [1, 2, 3], none, 5, 5⟩)] 9
       ("k".toList) none (some [("a".toList, "b".toList)])
       ⟨"k".toList, [1, 2, 3], none, 5, 5⟩ (by decide) (Or.inr rfl)
       (by simp [adapterLoad]) (by decide) (by decide)).1,
   (claim7_update_contract.2.2
       [("k".toList,
         serializeKeyEntry ⟨"k".toList, [1, 2, 3], some [("x".toList, "y".toList)], 5, 5⟩)]
       9 ("k".toList) (some [9, 9]) none
       ⟨"k".toList, [1, 2, 3], some [("x".toList, "y".toList)], 5, 5⟩ (by decide)
       (Or.inl rfl) (by simp [adapterLoad]) (by decide) (by decide)).1⟩
